import Mathlib

/-!
Verification of the autoheaders core against its specification.

The Python sources are shallowly embedded: byte strings become `List Nat`
(byte values), stateful scanning becomes explicit index threading, and
fallible code returns `Except`.  Where the source uses a `re` pattern, the
embedding implements that pattern's matching behaviour at its call site
(leftmost match, alternatives in order, greedy/lazy as written), which is
noted in each definition's doc comment.
-/

namespace Autoheaders

/-- Byte strings are lists of byte values. -/
abbrev Buf := List Nat

/-- Bytes of a string literal (ASCII code points), for writing test inputs. -/
def s2b (s : String) : Buf := s.data.map Char.toNat

/-- Python `text.count(b"\n")`. -/
def countNL (t : Buf) : Nat := t.count 10

/-- Python slice `text[a:b]` for nonnegative `a`, `b` (clamps like Python). -/
def slice (t : Buf) (a b : Nat) : Buf := (t.drop a).take (b - a)

/-- Byte at index `i`; `0` when out of range (call sites check bounds). -/
def byteAt (t : Buf) (i : Nat) : Nat := t.getD i 0

/-- Python `\s` on bytes: space, `\t`, `\n`, `\v`, `\f`, `\r`. -/
def isSpaceB (c : Nat) : Bool := c == 32 || c == 9 || c == 10 || c == 11 || c == 12 || c == 13

/-- Python `[^\S\n]` on bytes: whitespace other than `\n`. -/
def isSpaceNoNlB (c : Nat) : Bool := c == 32 || c == 9 || c == 11 || c == 12 || c == 13

/-- Python `\w` on ASCII bytes: letters, digits, underscore. -/
def isWordB (c : Nat) : Bool :=
  (48 ≤ c && c ≤ 57) || (65 ≤ c && c ≤ 90) || (97 ≤ c && c ≤ 122) || c == 95

/-- Whether `pat` occurs at position `i` of `t`. -/
def startsWithAt (t : Buf) (i : Nat) (pat : Buf) : Bool := pat.isPrefixOf (t.drop i)

/-- Helper for `findByteFrom`. -/
def findIdxFromAux (l : Buf) (b : Nat) (base : Nat) : Option Nat :=
  match l with
  | [] => none
  | c :: r => if c == b then some base else findIdxFromAux r b (base + 1)

/-- First index `≥ i` holding byte `b` (Python `text.index(b, i)` / `find`). -/
def findByteFrom (t : Buf) (i b : Nat) : Option Nat := findIdxFromAux (t.drop i) b i

/-- Helper for `rfindByteBefore`. -/
def rfindAux (l : Buf) (b base : Nat) (best : Option Nat) : Option Nat :=
  match l with
  | [] => best
  | c :: r => rfindAux r b (base + 1) (if c == b then some base else best)

/-- Last index `< e` holding byte `b` (Python `text.rfind(b, 0, e)`). -/
def rfindByteBefore (t : Buf) (e b : Nat) : Option Nat := rfindAux (t.take e) b 0 none

/-- Split into lines, each keeping its terminating newline (Python
`bytes.splitlines(keepends=True)`, modelled for LF-only input). -/
def splitKeepEnds : Buf → List Buf
  | [] => []
  | c :: r =>
    if c == 10 then [c] :: splitKeepEnds r
    else
      match splitKeepEnds r with
      | [] => [[c]]
      | l :: ls => (c :: l) :: ls

/-- Concatenate a list of byte strings. -/
def bjoin (ls : List Buf) : Buf := ls.foldr (· ++ ·) []

/-- Python `bytes.strip()`: remove leading and trailing ASCII whitespace. -/
def pyStrip (b : Buf) : Buf := ((b.dropWhile isSpaceB).reverse.dropWhile isSpaceB).reverse

/-- Python `bytes.strip(b"\n")`: remove leading and trailing newline bytes. -/
def stripNl (b : Buf) : Buf :=
  ((b.dropWhile (· == 10)).reverse.dropWhile (· == 10)).reverse

/-- Whether `sub` occurs as a contiguous run inside `s`. -/
def bytesContains (s sub : Buf) : Bool :=
  (List.range (s.length + 1)).any (fun i => startsWithAt s i sub)

/-- Whether `s` ends with `suf`. -/
def bytesEndsWith (s suf : Buf) : Bool := suf.isSuffixOf s

/-! ### blockrepl.py — block replacement for preprocessed C code -/

namespace Blockrepl

open Autoheaders

/-- Errors of `blockrepl.py` (`BlockReplacementParseError` carries the buffer
position passed to `with_header`); `outOfFuel` marks a scan that exceeded its
step bound, which a successful run never does. -/
inductive BRErr
  | statementEnd (pos : Nat)
  | closingBrace (pos : Nat)
  | outOfFuel
  deriving DecidableEq, Repr

/-- First position `≥ i` whose byte is not Python `\s`, or the buffer end. -/
def skipWsAux (l : Buf) (base : Nat) : Nat :=
  match l with
  | [] => base
  | c :: r => if isSpaceB c then skipWsAux r (base + 1) else base

/-- See `skipWsAux`. -/
def skipWs (t : Buf) (i : Nat) : Nat := skipWsAux (t.drop i) i

/-- Position of the first `\n` at index `≥ j`, or the buffer length. -/
def lineEndFrom (t : Buf) (j : Nat) : Nat := (findByteFrom t j 10).getD t.length

/-- The lazy interior scan of `string_regex`'s group 1, `(?:[\\]?.)*? \2`:
from `k`, close at the first byte equal to the quote `q`, a backslash
consuming the following byte. `none` when the buffer ends first. -/
def findClose (t : Buf) (q : Nat) : Nat → Nat → Option Nat
  | 0, _ => none
  | f + 1, k =>
    if k ≥ t.length then none
    else if byteAt t k == q then some k
    else if byteAt t k == 92 then findClose t q f (k + 2)
    else findClose t q f (k + 1)

/-- The scan performed by `string_regex.finditer` in `get_strings`:
the prefix `(?:(?:(?:^|(?<=\n))\s*\#[^\n]*)?[^"'\n]*\n?)*` skips, at each
line start, a directive line whose first non-`\s` byte is `#` (quotes in its
tail are ignored), and otherwise advances over non-quote bytes; at a quote,
group 1 matches through the closing quote (`findClose`), recording the span
including both quotes; a quote with no closer is stepped over and scanning
resumes after it. -/
def gsGo (t : Buf) : Nat → Nat → List (Nat × Nat)
  | 0, _ => []
  | f + 1, i =>
    if i ≥ t.length then []
    else if (i == 0 || byteAt t (i - 1) == 10)
        && (skipWs t i < t.length && byteAt t (skipWs t i) == 35) then
      gsGo t f (lineEndFrom t (skipWs t i))
    else if byteAt t i == 34 || byteAt t i == 39 then
      match findClose t (byteAt t i) t.length (i + 1) with
      | some e => (i, e + 1) :: gsGo t f (e + 1)
      | none => gsGo t f (i + 1)
    else gsGo t f (i + 1)

/-- `blockrepl.get_strings`: spans `(start, end)` of string/char literals,
where `text[start:end]` includes both quotes. -/
def get_strings (t : Buf) : List (Nat × Nat) := gsGo t (t.length + 1) 0

/-- The `parts` loop of `blockrepl.replace_strings`, with `pos` the resume
position: keeps `text[pos:start+1]`, replaces the contents with
`b"\n" * text.count(b"\n", start, end)`, keeps `text[end-1:end]`. -/
def rsBuild (t : Buf) (pos : Nat) : List (Nat × Nat) → Buf
  | [] => t.drop pos
  | (s, e) :: r =>
    slice t pos (s + 1) ++ List.replicate (countNL (slice t s e)) 10
      ++ slice t (e - 1) e ++ rsBuild t e r

/-- `blockrepl.replace_strings`. -/
def replace_strings (t : Buf) : Buf := rsBuild t 0 (get_strings t)

/-- Tags of `BlockParser.regex` (an `OrRegex`), in declaration order. -/
inductive BPTag
  | typedef
  | structKw
  | enumKw
  | unionKw
  | openbrace
  | assignment
  | preproc
  deriving DecidableEq, Repr

/-- Word boundary before position `p` (the following byte is a word byte). -/
def wordBoundary (t : Buf) (p : Nat) : Bool := p == 0 || !(isWordB (byteAt t (p - 1)))

/-- `\b <kw> \s` at position `p`; result is the match end (after the `\s`). -/
def matchKwAt (t : Buf) (p : Nat) (kw : Buf) : Option Nat :=
  if wordBoundary t p && startsWithAt t p kw && (p + kw.length < t.length)
      && isSpaceB (byteAt t (p + kw.length)) then
    some (p + kw.length + 1)
  else none

/-- `\b = \b` at position `p`: `=` with a word byte on each side. -/
def matchAssignAt (t : Buf) (p : Nat) : Option Nat :=
  if p < t.length && byteAt t p == 61 && decide (0 < p) && isWordB (byteAt t (p - 1))
      && (p + 1 < t.length) && isWordB (byteAt t (p + 1)) then
    some (p + 1)
  else none

/-- `^ \# .*? $ \n?` (MULTILINE, DOTALL) at position `p`: a `#` at a line
start; the lazy `.*?` stops at the first `$` (before a `\n` or at the end),
and `\n?` then consumes the newline when present. -/
def matchPreprocAt (t : Buf) (p : Nat) : Option Nat :=
  if (p == 0 || byteAt t (p - 1) == 10) && p < t.length && byteAt t p == 35 then
    let q := lineEndFrom t (p + 1)
    some (if q < t.length then q + 1 else q)
  else none

/-- Alternatives of `BlockParser.regex` tried in order at position `p`. -/
def bpAltsAt (t : Buf) (p : Nat) : Option (BPTag × Nat) :=
  match matchKwAt t p (s2b "typedef") with
  | some e => some (BPTag.typedef, e)
  | none =>
  match matchKwAt t p (s2b "struct") with
  | some e => some (BPTag.structKw, e)
  | none =>
  match matchKwAt t p (s2b "enum") with
  | some e => some (BPTag.enumKw, e)
  | none =>
  match matchKwAt t p (s2b "union") with
  | some e => some (BPTag.unionKw, e)
  | none =>
  if p < t.length && byteAt t p == 123 then some (BPTag.openbrace, p + 1)
  else
  match matchAssignAt t p with
  | some e => some (BPTag.assignment, e)
  | none =>
  match matchPreprocAt t p with
  | some e => some (BPTag.preproc, e)
  | none => none

/-- `OrRegex.search` for `BlockParser.regex`: leftmost match position, first
matching alternative; result is `(tag, match start, match end)`. -/
def bpSearch (t : Buf) : Nat → Nat → Option (BPTag × Nat × Nat)
  | 0, _ => none
  | f + 1, p =>
    if p ≥ t.length then none
    else
      match bpAltsAt t p with
      | some (tag, e) => some (tag, p, e)
      | none => bpSearch t f (p + 1)

/-- Loop body of `blockrepl.find_statement_end`, with `pos0` the position
reported on error. -/
def fseGo (t : Buf) (pos0 : Nat) : Nat → Nat → Int → Except BRErr Nat
  | 0, _, _ => .error .outOfFuel
  | f + 1, i, braces =>
    if i ≥ t.length then .error (.statementEnd pos0)
    else if byteAt t i == 123 then fseGo t pos0 f (i + 1) (braces + 1)
    else if byteAt t i == 125 then fseGo t pos0 f (i + 1) (braces - 1)
    else if braces > 0 then fseGo t pos0 f (i + 1) braces
    else if byteAt t i == 59 then .ok i
    else fseGo t pos0 f (i + 1) braces

/-- `blockrepl.find_statement_end`. -/
def find_statement_end (t : Buf) (pos : Nat) : Except BRErr Nat :=
  fseGo t pos (t.length + 1) pos 0

/-- Loop body of `blockrepl.find_closing_brace`. -/
def fcbGo (t : Buf) (pos0 : Nat) : Nat → Nat → Int → Except BRErr Nat
  | 0, _, _ => .error .outOfFuel
  | f + 1, i, braces =>
    if i ≥ t.length then .error (.closingBrace pos0)
    else if byteAt t i == 123 then fcbGo t pos0 f (i + 1) (braces + 1)
    else if !(byteAt t i == 125) then fcbGo t pos0 f (i + 1) braces
    else if braces - 1 ≤ 0 then .ok i
    else fcbGo t pos0 f (i + 1) (braces - 1)

/-- `blockrepl.find_closing_brace`. -/
def find_closing_brace (t : Buf) (pos : Nat) : Except BRErr Nat :=
  fcbGo t pos (t.length + 1) pos 1

/-- `BlockParser.parse_iter`: one search step; returns the new position and
the recorded block when the match was a bare `{`. -/
def bpStep (t : Buf) (pos : Nat) : Except BRErr (Nat × Option (Nat × Nat)) :=
  match bpSearch t (t.length + 1) pos with
  | none => .ok (t.length, none)
  | some (tag, _, e) =>
    if tag = BPTag.openbrace then
      match find_closing_brace t e with
      | .error err => .error err
      | .ok c => .ok (c, some (e, c))
    else if tag = BPTag.preproc then .ok (e, none)
    else
      match find_statement_end t e with
      | .error err => .error err
      | .ok se => .ok (se + 1, none)

/-- `BlockParser.parse`: iterate `parse_iter` until the position reaches the
end, collecting recorded blocks in order. -/
def bpParse (t : Buf) : Nat → Nat → Except BRErr (List (Nat × Nat))
  | 0, _ => .error .outOfFuel
  | f + 1, pos =>
    if pos ≥ t.length then .ok []
    else
      match bpStep t pos with
      | .error err => .error err
      | .ok (pos', blk) =>
        match bpParse t f pos' with
        | .error err => .error err
        | .ok rest =>
          .ok (match blk with
               | none => rest
               | some b => b :: rest)

/-- Drop bytes up to (not including) the next `\n`. -/
def skipToNl : Buf → Buf
  | [] => []
  | c :: r => if c == 10 then c :: r else skipToNl r

/-- The substitution of `non_preproc_regex.sub(b"", text)`: at each line
start, a maximal non-newline run beginning with a byte other than `#` and
`\n` is deleted; every other byte is copied. -/
def rnpGo : Nat → Buf → Bool → Buf
  | 0, t, _ => t
  | _ + 1, [], _ => []
  | f + 1, c :: r, atLS =>
    if atLS && !(c == 35) && !(c == 10) then rnpGo f (skipToNl r) false
    else c :: rnpGo f r (c == 10)

/-- `blockrepl.replace_non_preproc`. -/
def replace_non_preproc (t : Buf) : Buf := rnpGo t.length t true

/-- The `parts` loop of `blockrepl.replace_blocks_from_list`. -/
def rbBuild (t : Buf) (pos : Nat) : List (Nat × Nat) → Buf
  | [] => t.drop pos
  | (s, e) :: r => slice t pos s ++ replace_non_preproc (slice t s e) ++ rbBuild t e r

/-- `blockrepl.replace_blocks_from_list`. -/
def replace_blocks_from_list (t : Buf) (blocks : List (Nat × Nat)) : Buf :=
  rbBuild t 0 blocks

/-- `blockrepl.replace_blocks_nostr`. -/
def replace_blocks_nostr (t : Buf) : Except BRErr Buf :=
  match bpParse t (t.length + 1) 0 with
  | .error err => .error err
  | .ok blocks => .ok (replace_blocks_from_list t blocks)

/-- `blockrepl.replace_blocks`. -/
def replace_blocks (t : Buf) : Except BRErr Buf :=
  replace_blocks_nostr (replace_strings t)

end Blockrepl

/-! ### Facts about the block-replacement pass -/

namespace Blockrepl

/-- Spans recorded by `get_strings`, as seen from resume position `pos`:
ordered, at least two bytes wide, in range, and delimited by non-newline
bytes (the quotes). -/
def SpansValid (t : Buf) : Nat → List (Nat × Nat) → Prop
  | _, [] => True
  | pos, (s, e) :: r =>
    pos ≤ s ∧ s + 2 ≤ e ∧ e ≤ t.length ∧ byteAt t s ≠ 10 ∧ byteAt t (e - 1) ≠ 10
      ∧ SpansValid t e r

/-- Blocks recorded by `BlockParser`, as seen from resume position `pos`. -/
def BlocksValid (t : Buf) : Nat → List (Nat × Nat) → Prop
  | _, [] => True
  | pos, (s, e) :: r => pos ≤ s ∧ s ≤ e ∧ e ≤ t.length ∧ BlocksValid t e r

theorem spansValid_weaken (t : Buf) :
    ∀ l {i j : Nat}, i ≤ j → SpansValid t j l → SpansValid t i l := by
  intro l
  cases l with
  | nil => intro i j _ _; trivial
  | cons hd tl =>
    intro i j hij hv
    obtain ⟨h1, h2⟩ := hv
    exact ⟨le_trans hij h1, h2⟩

theorem blocksValid_weaken (t : Buf) :
    ∀ l {i j : Nat}, i ≤ j → BlocksValid t j l → BlocksValid t i l := by
  intro l
  cases l with
  | nil => intro i j _ _; trivial
  | cons hd tl =>
    intro i j hij hv
    obtain ⟨h1, h2⟩ := hv
    exact ⟨le_trans hij h1, h2⟩

theorem slice_append_slice (t : Buf) {a b c : Nat} (h1 : a ≤ b) (h2 : b ≤ c) :
    slice t a b ++ slice t b c = slice t a c := by
  unfold slice
  have hd : t.drop b = (t.drop a).drop (b - a) := by
    rw [List.drop_drop]
    congr 1
    omega
  rw [hd, ← List.take_add]
  congr 1
  omega

theorem slice_append_drop (t : Buf) {a b : Nat} (h : a ≤ b) :
    slice t a b ++ t.drop b = t.drop a := by
  unfold slice
  have hd : t.drop b = (t.drop a).drop (b - a) := by
    rw [List.drop_drop]
    congr 1
    omega
  rw [hd, List.take_append_drop]

theorem countNL_append (a b : Buf) : countNL (a ++ b) = countNL a + countNL b := by
  simp [countNL, List.count_append]

theorem drop_eq_byteAt_cons :
    ∀ (t : Buf) (s : Nat), s < t.length → t.drop s = byteAt t s :: t.drop (s + 1) := by
  intro t
  induction t with
  | nil => intro s h; simp at h
  | cons c r ih =>
    intro s h
    cases s with
    | zero => rfl
    | succ s =>
      have hlt : s < r.length := by simpa using Nat.lt_of_succ_lt_succ h
      have := ih s hlt
      simpa [byteAt, List.getD_cons_succ] using this

theorem countNL_slice_one (t : Buf) {s : Nat} (hs : s < t.length)
    (hne : byteAt t s ≠ 10) : countNL (slice t s (s + 1)) = 0 := by
  have h1 : slice t s (s + 1) = [byteAt t s] := by
    unfold slice
    rw [show s + 1 - s = 1 from by omega, drop_eq_byteAt_cons t s hs,
      List.take_succ_cons, List.take_zero]
  rw [h1]
  simp [countNL, List.count_cons, hne]

theorem countNL_drop_decomp (t : Buf) {pos s e : Nat} (h1 : pos ≤ s) (h2 : s ≤ e) :
    countNL (t.drop pos) = countNL (slice t pos s) + countNL (slice t s e)
      + countNL (t.drop e) := by
  rw [← slice_append_drop t (le_trans h1 h2), ← slice_append_slice t h1 h2]
  rw [countNL_append, countNL_append]

theorem rsBuild_countNL (t : Buf) :
    ∀ sp pos, SpansValid t pos sp → countNL (rsBuild t pos sp) = countNL (t.drop pos) := by
  intro sp
  induction sp with
  | nil => intro pos _; rfl
  | cons hd tl ih =>
    obtain ⟨s, e⟩ := hd
    intro pos hv
    obtain ⟨hps, hse, hel, hqs, hqe, hrest⟩ := hv
    have hs_lt : s < t.length := by omega
    have he_lt : e - 1 < t.length := by omega
    have hsum : countNL (rsBuild t pos ((s, e) :: tl))
        = countNL (slice t pos (s + 1)) + countNL (slice t s e)
          + countNL (slice t (e - 1) e) + countNL (rsBuild t e tl) := by
      show countNL (slice t pos (s + 1) ++ List.replicate (countNL (slice t s e)) 10
        ++ slice t (e - 1) e ++ rsBuild t e tl) = _
      rw [countNL_append, countNL_append, countNL_append]
      have : countNL (List.replicate (countNL (slice t s e)) 10)
          = countNL (slice t s e) := by
        simp [countNL]
      omega
    have hsplit1 : countNL (slice t pos (s + 1))
        = countNL (slice t pos s) + countNL (slice t s (s + 1)) := by
      rw [← slice_append_slice t hps (Nat.le_succ s), countNL_append]
    have hz1 : countNL (slice t s (s + 1)) = 0 := countNL_slice_one t hs_lt hqs
    have hz2 : countNL (slice t (e - 1) e) = 0 := by
      have : e - 1 + 1 = e := by omega
      have h := countNL_slice_one t he_lt hqe
      rwa [this] at h
    rw [hsum, ih e hrest, hsplit1, hz1, hz2,
      countNL_drop_decomp t hps (by omega : s ≤ e)]
    omega

theorem skipWsAux_ge : ∀ (l : Buf) (base : Nat), base ≤ skipWsAux l base := by
  intro l
  induction l with
  | nil => intro base; exact le_refl base
  | cons c r ih =>
    intro base
    unfold skipWsAux
    by_cases h : isSpaceB c
    · simp only [h, if_true]
      exact le_trans (Nat.le_succ base) (ih (base + 1))
    · simp [h]

theorem skipWs_ge (t : Buf) (i : Nat) : i ≤ skipWs t i := skipWsAux_ge _ i

theorem findIdxFromAux_spec :
    ∀ (l : Buf) (b base m : Nat), findIdxFromAux l b base = some m →
      base ≤ m ∧ m < base + l.length := by
  intro l
  induction l with
  | nil => intro b base m h; exact absurd h (by simp [findIdxFromAux])
  | cons c r ih =>
    intro b base m h
    unfold findIdxFromAux at h
    by_cases hc : (c == b) = true
    · rw [if_pos hc] at h
      injection h with h
      subst h
      exact ⟨le_refl _, by simp only [List.length_cons]; omega⟩
    · rw [if_neg hc] at h
      have := ih b (base + 1) m h
      refine ⟨by omega, ?_⟩
      simp only [List.length_cons]
      omega

theorem lineEndFrom_ge (t : Buf) (j : Nat) (hj : j ≤ t.length) :
    j ≤ lineEndFrom t j := by
  unfold lineEndFrom findByteFrom
  cases h : findIdxFromAux (t.drop j) 10 j with
  | none => simpa using hj
  | some m => simpa using (findIdxFromAux_spec _ 10 j m h).1

theorem lineEndFrom_le (t : Buf) (j : Nat) : lineEndFrom t j ≤ t.length := by
  unfold lineEndFrom findByteFrom
  cases h : findIdxFromAux (t.drop j) 10 j with
  | none => simp
  | some m =>
    obtain ⟨hg, hl⟩ := findIdxFromAux_spec _ 10 j m h
    simp only [Option.getD_some]
    have hlen : (t.drop j).length = t.length - j := by simp
    omega

theorem findClose_spec (t : Buf) (q : Nat) :
    ∀ f k e, findClose t q f k = some e → k ≤ e ∧ e < t.length ∧ byteAt t e = q := by
  intro f
  induction f with
  | zero => intro k e h; exact absurd h (by simp [findClose])
  | succ f ih =>
    intro k e h
    unfold findClose at h
    by_cases h1 : k ≥ t.length
    · rw [if_pos h1] at h; cases h
    rw [if_neg h1] at h
    by_cases h2 : (byteAt t k == q) = true
    · rw [if_pos h2] at h
      injection h with h
      subst h
      exact ⟨le_refl _, by omega, by simpa using h2⟩
    rw [if_neg h2] at h
    by_cases h3 : (byteAt t k == 92) = true
    · rw [if_pos h3] at h
      obtain ⟨ha, hb⟩ := ih _ _ h
      exact ⟨by omega, hb⟩
    · rw [if_neg h3] at h
      obtain ⟨ha, hb⟩ := ih _ _ h
      exact ⟨by omega, hb⟩

theorem gsGo_valid (t : Buf) :
    ∀ f i, SpansValid t i (gsGo t f i) := by
  intro f
  induction f with
  | zero => intro i; trivial
  | succ f ih =>
    intro i
    unfold gsGo
    by_cases h1 : i ≥ t.length
    · rw [if_pos h1]; trivial
    rw [if_neg h1]
    by_cases h2 : ((i == 0 || byteAt t (i - 1) == 10)
        && (decide (skipWs t i < t.length) && (byteAt t (skipWs t i) == 35))) = true
    · rw [if_pos h2]
      have hsk : skipWs t i < t.length := by
        simp only [Bool.and_eq_true, decide_eq_true_eq] at h2
        exact h2.2.1
      have hle : i ≤ lineEndFrom t (skipWs t i) :=
        le_trans (skipWs_ge t i) (lineEndFrom_ge t _ (le_of_lt hsk))
      exact spansValid_weaken t _ hle (ih _)
    rw [if_neg h2]
    by_cases h3 : ((byteAt t i == 34) || (byteAt t i == 39)) = true
    · rw [if_pos h3]
      cases hfc : findClose t (byteAt t i) t.length (i + 1) with
      | none => exact spansValid_weaken t _ (Nat.le_succ i) (ih (i + 1))
      | some e =>
        have hspec := findClose_spec t (byteAt t i) t.length (i + 1) e hfc
        refine ⟨le_refl i, by omega, by omega, ?_, ?_, ih (e + 1)⟩
        · intro hcon
          rw [hcon] at h3
          simp at h3
        · intro hcon
          have heq : byteAt t (e + 1 - 1) = byteAt t e := by
            congr 1
          rw [heq, hspec.2.2] at hcon
          rw [hcon] at h3
          simp at h3
    · rw [if_neg h3]
      exact spansValid_weaken t _ (Nat.le_succ i) (ih (i + 1))

theorem replace_strings_countNL (t : Buf) :
    countNL (replace_strings t) = countNL t := by
  have h := rsBuild_countNL t (get_strings t) 0 (gsGo_valid t (t.length + 1) 0)
  simpa [replace_strings] using h

theorem matchKwAt_spec {t : Buf} {p : Nat} {kw : Buf} {e : Nat}
    (h : matchKwAt t p kw = some e) : p < e ∧ e ≤ t.length := by
  unfold matchKwAt at h
  by_cases hc : (wordBoundary t p && startsWithAt t p kw
      && decide (p + kw.length < t.length) && isSpaceB (byteAt t (p + kw.length))) = true
  · rw [if_pos hc] at h
    injection h with h
    subst h
    simp only [Bool.and_eq_true, decide_eq_true_eq] at hc
    exact ⟨by omega, by omega⟩
  · rw [if_neg hc] at h
    cases h

theorem matchAssignAt_spec {t : Buf} {p e : Nat}
    (h : matchAssignAt t p = some e) : p < e ∧ e ≤ t.length := by
  unfold matchAssignAt at h
  by_cases hc : (decide (p < t.length) && (byteAt t p == 61) && decide (0 < p)
      && isWordB (byteAt t (p - 1)) && decide (p + 1 < t.length)
      && isWordB (byteAt t (p + 1))) = true
  · rw [if_pos hc] at h
    injection h with h
    subst h
    simp only [Bool.and_eq_true, decide_eq_true_eq] at hc
    exact ⟨by omega, by omega⟩
  · rw [if_neg hc] at h
    cases h

theorem matchPreprocAt_spec {t : Buf} {p e : Nat}
    (h : matchPreprocAt t p = some e) : p < e ∧ e ≤ t.length := by
  unfold matchPreprocAt at h
  by_cases hc : ((p == 0 || byteAt t (p - 1) == 10) && decide (p < t.length)
      && (byteAt t p == 35)) = true
  · rw [if_pos hc] at h
    simp only [Bool.and_eq_true, decide_eq_true_eq] at hc
    have hp : p < t.length := hc.1.2
    have hge : p + 1 ≤ lineEndFrom t (p + 1) := lineEndFrom_ge t (p + 1) (by omega)
    have hle : lineEndFrom t (p + 1) ≤ t.length := lineEndFrom_le t (p + 1)
    injection h with h
    subst h
    by_cases hq : lineEndFrom t (p + 1) < t.length
    · rw [if_pos hq]
      exact ⟨by omega, by omega⟩
    · rw [if_neg hq]
      exact ⟨by omega, by omega⟩
  · rw [if_neg hc] at h
    cases h

theorem bpAltsAt_spec {t : Buf} {p : Nat} {tag : BPTag} {e : Nat}
    (h : bpAltsAt t p = some (tag, e)) : p < e ∧ e ≤ t.length := by
  unfold bpAltsAt at h
  cases h1 : matchKwAt t p (s2b "typedef") with
  | some e1 =>
    simp only [h1] at h
    injection h with h
    cases h
    exact matchKwAt_spec h1
  | none =>
  simp only [h1] at h
  cases h2 : matchKwAt t p (s2b "struct") with
  | some e2 =>
    simp only [h2] at h
    injection h with h
    cases h
    exact matchKwAt_spec h2
  | none =>
  simp only [h2] at h
  cases h3 : matchKwAt t p (s2b "enum") with
  | some e3 =>
    simp only [h3] at h
    injection h with h
    cases h
    exact matchKwAt_spec h3
  | none =>
  simp only [h3] at h
  cases h4 : matchKwAt t p (s2b "union") with
  | some e4 =>
    simp only [h4] at h
    injection h with h
    cases h
    exact matchKwAt_spec h4
  | none =>
  simp only [h4] at h
  by_cases h5 : (decide (p < t.length) && (byteAt t p == 123)) = true
  · rw [if_pos h5] at h
    injection h with h
    cases h
    simp only [Bool.and_eq_true, decide_eq_true_eq] at h5
    exact ⟨by omega, by omega⟩
  · rw [if_neg h5] at h
    cases h6 : matchAssignAt t p with
    | some e6 =>
      simp only [h6] at h
      injection h with h
      cases h
      exact matchAssignAt_spec h6
    | none =>
    simp only [h6] at h
    cases h7 : matchPreprocAt t p with
    | some e7 =>
      simp only [h7] at h
      injection h with h
      cases h
      exact matchPreprocAt_spec h7
    | none =>
      simp only [h7] at h
      cases h

theorem bpSearch_spec (t : Buf) :
    ∀ f p tag s e, bpSearch t f p = some (tag, s, e) →
      p ≤ s ∧ s < e ∧ e ≤ t.length := by
  intro f
  induction f with
  | zero => intro p tag s e h; exact absurd h (by simp [bpSearch])
  | succ f ih =>
    intro p tag s e h
    unfold bpSearch at h
    by_cases h1 : p ≥ t.length
    · rw [if_pos h1] at h; cases h
    rw [if_neg h1] at h
    cases h2 : bpAltsAt t p with
    | some te =>
      obtain ⟨tag2, e2⟩ := te
      simp only [h2] at h
      injection h with h
      injection h with ha hb
      cases ha
      injection hb with hb1 hb2
      cases hb1
      cases hb2
      have := bpAltsAt_spec h2
      exact ⟨le_refl _, this.1, this.2⟩
    | none =>
      simp only [h2] at h
      have := ih (p + 1) tag s e h
      exact ⟨by omega, this.2⟩

theorem fseGo_spec (t : Buf) (pos0 : Nat) :
    ∀ f i braces j, fseGo t pos0 f i braces = .ok j → i ≤ j ∧ j < t.length := by
  intro f
  induction f with
  | zero => intro i braces j h; cases h
  | succ f ih =>
    intro i braces j h
    unfold fseGo at h
    by_cases h1 : i ≥ t.length
    · rw [if_pos h1] at h; cases h
    rw [if_neg h1] at h
    by_cases h2 : (byteAt t i == 123) = true
    · rw [if_pos h2] at h
      have := ih _ _ _ h
      exact ⟨by omega, this.2⟩
    rw [if_neg h2] at h
    by_cases h3 : (byteAt t i == 125) = true
    · rw [if_pos h3] at h
      have := ih _ _ _ h
      exact ⟨by omega, this.2⟩
    rw [if_neg h3] at h
    by_cases h4 : braces > 0
    · rw [if_pos h4] at h
      have := ih _ _ _ h
      exact ⟨by omega, this.2⟩
    rw [if_neg h4] at h
    by_cases h5 : (byteAt t i == 59) = true
    · rw [if_pos h5] at h
      injection h with h
      subst h
      exact ⟨le_refl _, by omega⟩
    · rw [if_neg h5] at h
      have := ih _ _ _ h
      exact ⟨by omega, this.2⟩

theorem fcbGo_spec (t : Buf) (pos0 : Nat) :
    ∀ f i braces j, fcbGo t pos0 f i braces = .ok j → i ≤ j ∧ j < t.length := by
  intro f
  induction f with
  | zero => intro i braces j h; cases h
  | succ f ih =>
    intro i braces j h
    unfold fcbGo at h
    by_cases h1 : i ≥ t.length
    · rw [if_pos h1] at h; cases h
    rw [if_neg h1] at h
    by_cases h2 : (byteAt t i == 123) = true
    · rw [if_pos h2] at h
      have := ih _ _ _ h
      exact ⟨by omega, this.2⟩
    rw [if_neg h2] at h
    by_cases h3 : (!(byteAt t i == 125)) = true
    · rw [if_pos h3] at h
      have := ih _ _ _ h
      exact ⟨by omega, this.2⟩
    rw [if_neg h3] at h
    by_cases h4 : braces - 1 ≤ 0
    · rw [if_pos h4] at h
      injection h with h
      subst h
      exact ⟨le_refl _, by omega⟩
    · rw [if_neg h4] at h
      have := ih _ _ _ h
      exact ⟨by omega, this.2⟩

theorem bpStep_spec {t : Buf} {pos pos' : Nat} {blk : Option (Nat × Nat)}
    (hp : pos ≤ t.length) (h : bpStep t pos = .ok (pos', blk)) :
    pos ≤ pos' ∧ pos' ≤ t.length
      ∧ ∀ s e, blk = some (s, e) → pos ≤ s ∧ s ≤ e ∧ e ≤ t.length ∧ pos' = e := by
  unfold bpStep at h
  cases hs : bpSearch t (t.length + 1) pos with
  | none =>
    simp only [hs] at h
    injection h with h
    injection h with h1 h2
    cases h1
    cases h2
    exact ⟨hp, le_refl _, by intro s e hse; cases hse⟩
  | some tse =>
    obtain ⟨tag, sm, em⟩ := tse
    simp only [hs] at h
    have hsearch := bpSearch_spec t (t.length + 1) pos tag sm em hs
    by_cases ht1 : tag = BPTag.openbrace
    · rw [if_pos ht1] at h
      cases hcb : find_closing_brace t em with
      | error err => simp only [hcb] at h; cases h
      | ok c =>
        simp only [hcb] at h
        have hcs := fcbGo_spec t em (t.length + 1) em 1 c hcb
        injection h with h
        injection h with h1 h2
        subst h1
        subst h2
        refine ⟨by omega, by omega, ?_⟩
        intro s e hse
        injection hse with hse
        injection hse with hse1 hse2
        subst hse1
        subst hse2
        exact ⟨by omega, by omega, by omega, rfl⟩
    rw [if_neg ht1] at h
    by_cases ht2 : tag = BPTag.preproc
    · rw [if_pos ht2] at h
      injection h with h
      injection h with h1 h2
      cases h1
      cases h2
      exact ⟨by omega, by omega, by intro s e hse; cases hse⟩
    · rw [if_neg ht2] at h
      cases hse : find_statement_end t em with
      | error err => simp only [hse] at h; cases h
      | ok se =>
        simp only [hse] at h
        injection h with h
        injection h with h1 h2
        cases h1
        cases h2
        have hss := fseGo_spec t em (t.length + 1) em 0 se hse
        exact ⟨by omega, by omega, by intro s e hx; cases hx⟩

theorem bpParse_valid (t : Buf) :
    ∀ f pos bs, pos ≤ t.length → bpParse t f pos = .ok bs → BlocksValid t pos bs := by
  intro f
  induction f with
  | zero => intro pos bs _ h; cases h
  | succ f ih =>
    intro pos bs hp h
    unfold bpParse at h
    by_cases h1 : pos ≥ t.length
    · rw [if_pos h1] at h
      injection h with h
      subst h
      trivial
    rw [if_neg h1] at h
    cases hstep : bpStep t pos with
    | error err => simp only [hstep] at h; cases h
    | ok pb =>
      obtain ⟨pos', blk⟩ := pb
      simp only [hstep] at h
      cases hrest : bpParse t f pos' with
      | error err => simp only [hrest] at h; cases h
      | ok rest =>
        simp only [hrest] at h
        obtain ⟨hle, hle2, hblk⟩ := bpStep_spec hp hstep
        have hvrest := ih pos' rest hle2 hrest
        cases blk with
        | none =>
          injection h with h
          subst h
          exact blocksValid_weaken t rest hle hvrest
        | some b =>
          obtain ⟨s, e⟩ := b
          injection h with h
          subst h
          obtain ⟨hb1, hb2, hb3, hb4⟩ := hblk s e rfl
          subst hb4
          exact ⟨hb1, hb2, hb3, hvrest⟩

theorem skipToNl_countNL : ∀ l : Buf, countNL (skipToNl l) = countNL l := by
  intro l
  induction l with
  | nil => rfl
  | cons c r ih =>
    unfold skipToNl
    by_cases h : (c == 10) = true
    · rw [if_pos h]
    · rw [if_neg h]
      rw [ih]
      simp only [countNL, List.count_cons]
      simp [h]

theorem rnpGo_countNL : ∀ (f : Nat) (l : Buf) (b : Bool), countNL (rnpGo f l b) = countNL l := by
  intro f
  induction f with
  | zero => intro l b; rfl
  | succ f ih =>
    intro l b
    cases l with
    | nil => rfl
    | cons c r =>
      unfold rnpGo
      by_cases h : (b && !(c == 35) && !(c == 10)) = true
      · rw [if_pos h]
        rw [ih, skipToNl_countNL]
        simp only [Bool.and_eq_true, Bool.not_eq_true'] at h
        simp [countNL, List.count_cons, h.2]
      · rw [if_neg h]
        simp only [countNL, List.count_cons]
        rw [show List.count 10 (rnpGo f r (c == 10)) = countNL (rnpGo f r (c == 10)) from rfl,
          ih]
        rfl

theorem replace_non_preproc_countNL (x : Buf) :
    countNL (replace_non_preproc x) = countNL x := rnpGo_countNL x.length x true

theorem rbBuild_countNL (t : Buf) :
    ∀ bs pos, BlocksValid t pos bs → countNL (rbBuild t pos bs) = countNL (t.drop pos) := by
  intro bs
  induction bs with
  | nil => intro pos _; rfl
  | cons hd tl ih =>
    obtain ⟨s, e⟩ := hd
    intro pos hv
    obtain ⟨hps, hse, hel, hrest⟩ := hv
    have hsum : countNL (rbBuild t pos ((s, e) :: tl))
        = countNL (slice t pos s) + countNL (replace_non_preproc (slice t s e))
          + countNL (rbBuild t e tl) := by
      show countNL (slice t pos s ++ replace_non_preproc (slice t s e) ++ rbBuild t e tl) = _
      rw [countNL_append, countNL_append]
    rw [hsum, replace_non_preproc_countNL, ih e hrest,
      countNL_drop_decomp t hps hse]

theorem replace_blocks_countNL {t r : Buf} (h : Blockrepl.replace_blocks t = .ok r) :
    countNL r = countNL t := by
  unfold replace_blocks replace_blocks_nostr at h
  cases hp : bpParse (replace_strings t) ((replace_strings t).length + 1) 0 with
  | error err => rw [hp] at h; cases h
  | ok bs =>
    rw [hp] at h
    injection h with h
    subst h
    have hv := bpParse_valid (replace_strings t) ((replace_strings t).length + 1) 0 bs
      (by omega) hp
    have := rbBuild_countNL (replace_strings t) bs 0 hv
    rw [replace_blocks_from_list, this]
    simpa using replace_strings_countNL t

/-- The first line of `x`, including its terminating newline when present. -/
def takeThroughNl : Buf → Buf
  | [] => []
  | c :: r => if c == 10 then [c] else c :: takeThroughNl r

/-- Everything after the first newline of `x` (empty when there is none). -/
def dropThroughNl : Buf → Buf
  | [] => []
  | c :: r => if c == 10 then r else dropThroughNl r

/-- Per-line effect of `non_preproc_regex.sub(b"", ·)` on a keepends line:
a line whose first byte is neither `#` nor `\n` loses its content (only its
newline bytes survive); any other line is kept verbatim. -/
def blankLine (l : Buf) : Buf :=
  match l with
  | [] => []
  | c :: r => if !(c == 35) && !(c == 10) then (c :: r).filter (fun b => b == 10) else c :: r

theorem skipToNl_length_le : ∀ l : Buf, (skipToNl l).length ≤ l.length := by
  intro l
  induction l with
  | nil => exact le_refl 0
  | cons c r ih =>
    unfold skipToNl
    by_cases h : (c == 10) = true
    · rw [if_pos h]
    · rw [if_neg h]
      simp only [List.length_cons]
      omega

theorem dropThroughNl_length_le : ∀ l : Buf, (dropThroughNl l).length ≤ l.length := by
  intro l
  induction l with
  | nil => exact le_refl 0
  | cons c r ih =>
    unfold dropThroughNl
    by_cases h : (c == 10) = true
    · rw [if_pos h]
      simp only [List.length_cons]
      omega
    · rw [if_neg h]
      simp only [List.length_cons]
      omega

theorem takeThroughNl_nl (r : Buf) : takeThroughNl (10 :: r) = [10] := by
  show (if ((10 : Nat) == 10) = true then [10] else 10 :: takeThroughNl r) = [10]
  rw [if_pos (by simp)]

theorem takeThroughNl_cons {c : Nat} (r : Buf) (h : (c == 10) = false) :
    takeThroughNl (c :: r) = c :: takeThroughNl r := by
  show (if (c == 10) = true then [c] else c :: takeThroughNl r) = c :: takeThroughNl r
  rw [if_neg (by simp [h])]

theorem dropThroughNl_nl (r : Buf) : dropThroughNl (10 :: r) = r := by
  show (if ((10 : Nat) == 10) = true then r else dropThroughNl r) = r
  rw [if_pos (by simp)]

theorem dropThroughNl_cons {c : Nat} (r : Buf) (h : (c == 10) = false) :
    dropThroughNl (c :: r) = dropThroughNl r := by
  show (if (c == 10) = true then r else dropThroughNl r) = dropThroughNl r
  rw [if_neg (by simp [h])]

theorem skipToNl_nl (r : Buf) : skipToNl (10 :: r) = 10 :: r := by
  show (if ((10 : Nat) == 10) = true then 10 :: r else skipToNl r) = 10 :: r
  rw [if_pos (by simp)]

theorem skipToNl_cons {c : Nat} (r : Buf) (h : (c == 10) = false) :
    skipToNl (c :: r) = skipToNl r := by
  show (if (c == 10) = true then c :: r else skipToNl r) = skipToNl r
  rw [if_neg (by simp [h])]

theorem splitKeepEnds_nl (r : Buf) : splitKeepEnds (10 :: r) = [10] :: splitKeepEnds r := by
  show (if ((10 : Nat) == 10) = true then [10] :: splitKeepEnds r else
        match splitKeepEnds r with
        | [] => [[10]]
        | l :: ls => (10 :: l) :: ls) = [10] :: splitKeepEnds r
  rw [if_pos (by simp)]

theorem splitKeepEnds_cons {c : Nat} (r : Buf) (h : (c == 10) = false) :
    splitKeepEnds (c :: r)
      = match splitKeepEnds r with
        | [] => [[c]]
        | l :: ls => (c :: l) :: ls := by
  show (if (c == 10) = true then [c] :: splitKeepEnds r else
        match splitKeepEnds r with
        | [] => [[c]]
        | l :: ls => (c :: l) :: ls) = _
  rw [if_neg (by simp [h])]

theorem splitKeepEnds_decomp (c : Nat) (r : Buf) :
    splitKeepEnds (c :: r)
      = takeThroughNl (c :: r) :: splitKeepEnds (dropThroughNl (c :: r)) := by
  induction r generalizing c with
  | nil =>
    by_cases h : (c == 10) = true
    · have hc : c = 10 := by simpa using h
      subst hc
      rw [splitKeepEnds_nl, takeThroughNl_nl, dropThroughNl_nl]
    · have hf : (c == 10) = false := by simpa using h
      rw [splitKeepEnds_cons [] hf, takeThroughNl_cons [] hf, dropThroughNl_cons [] hf]
      rfl
  | cons d s ih =>
    by_cases h : (c == 10) = true
    · have hc : c = 10 := by simpa using h
      subst hc
      rw [splitKeepEnds_nl, takeThroughNl_nl, dropThroughNl_nl]
    · have hf : (c == 10) = false := by simpa using h
      rw [splitKeepEnds_cons (d :: s) hf, ih d]
      rw [takeThroughNl_cons (d :: s) hf, dropThroughNl_cons (d :: s) hf]

theorem dropThroughNl_skipToNl : ∀ x : Buf, dropThroughNl (skipToNl x) = dropThroughNl x := by
  intro x
  induction x with
  | nil => rfl
  | cons c r ih =>
    by_cases h : (c == 10) = true
    · have hc : c = 10 := by simpa using h
      subst hc
      rw [skipToNl_nl]
    · have hf : (c == 10) = false := by simpa using h
      rw [skipToNl_cons r hf, ih, dropThroughNl_cons r hf]

theorem filter_takeThroughNl (x : Buf) :
    (takeThroughNl x).filter (fun b => b == 10) = takeThroughNl (skipToNl x) := by
  induction x with
  | nil => rfl
  | cons c r ih =>
    by_cases h : (c == 10) = true
    · have hc : c = 10 := by simpa using h
      subst hc
      rw [takeThroughNl_nl, skipToNl_nl, takeThroughNl_nl]
      rfl
    · have hf : (c == 10) = false := by simpa using h
      rw [takeThroughNl_cons r hf, skipToNl_cons r hf, ← ih]
      simp only [List.filter]
      rw [hf]

theorem rnpGo_step (f c : Nat) (r : Buf) (b : Bool) :
    rnpGo (f + 1) (c :: r) b
      = if (b && !(c == 35) && !(c == 10)) = true then rnpGo f (skipToNl r) false
        else c :: rnpGo f r (c == 10) := rfl

theorem rnpGo_fuel_irrel :
    ∀ f g (x : Buf) (b : Bool), x.length ≤ f → x.length ≤ g →
      rnpGo f x b = rnpGo g x b := by
  intro f
  induction f with
  | zero =>
    intro g x b hf _
    have : x = [] := List.eq_nil_of_length_eq_zero (by omega)
    subst this
    cases g <;> rfl
  | succ f ih =>
    intro g x b hf hg
    cases x with
    | nil => cases g <;> rfl
    | cons c r =>
      simp only [List.length_cons] at hf hg
      cases g with
      | zero => omega
      | succ g =>
        have hf' : r.length ≤ f := by omega
        have hg' : r.length ≤ g := by omega
        unfold rnpGo
        by_cases h : (b && !(c == 35) && !(c == 10)) = true
        · rw [if_pos h, if_pos h]
          exact ih g (skipToNl r) false
            (le_trans (skipToNl_length_le r) hf')
            (le_trans (skipToNl_length_le r) hg')
        · rw [if_neg h, if_neg h, ih g r (c == 10) hf' hg']

theorem rnpGo_false_decomp :
    ∀ f (r : Buf), r.length ≤ f →
      rnpGo f r false = takeThroughNl r ++ rnpGo f (dropThroughNl r) true := by
  intro f
  induction f with
  | zero =>
    intro r hf
    have : r = [] := List.eq_nil_of_length_eq_zero (by omega)
    subst this
    rfl
  | succ f ih =>
    intro r hf
    cases r with
    | nil => rfl
    | cons c rs =>
      simp only [List.length_cons] at hf
      have hlen : rs.length ≤ f := by omega
      rw [rnpGo_step f c rs false, if_neg (by simp)]
      by_cases h : (c == 10) = true
      · have hc : c = 10 := by simpa using h
        subst hc
        rw [takeThroughNl_nl, dropThroughNl_nl, h]
        simp only [List.cons_append, List.nil_append]
        congr 1
        exact rnpGo_fuel_irrel f (f + 1) rs true hlen (by omega)
      · have hfc : (c == 10) = false := by simpa using h
        rw [takeThroughNl_cons rs hfc, dropThroughNl_cons rs hfc, hfc]
        rw [ih rs hlen]
        simp only [List.cons_append]
        congr 2
        exact rnpGo_fuel_irrel f (f + 1) (dropThroughNl rs) true
          (le_trans (dropThroughNl_length_le rs) hlen)
          (le_trans (dropThroughNl_length_le rs) (by omega))

theorem rnpGo_linewise :
    ∀ f (x : Buf), x.length ≤ f →
      rnpGo f x true = bjoin ((splitKeepEnds x).map blankLine) := by
  intro f
  induction f with
  | zero =>
    intro x hf
    have : x = [] := List.eq_nil_of_length_eq_zero (by omega)
    subst this
    rfl
  | succ f ih =>
    intro x hf
    cases x with
    | nil => rfl
    | cons c r =>
      simp only [List.length_cons] at hf
      have hlen : r.length ≤ f := by omega
      rw [splitKeepEnds_decomp c r, rnpGo_step f c r true]
      by_cases h10 : (c == 10) = true
      · rw [if_neg (by simp [h10])]
        have hc : c = 10 := by simpa using h10
        subst hc
        rw [takeThroughNl_nl, dropThroughNl_nl, h10]
        simp only [List.map_cons, bjoin, List.foldr_cons]
        rw [show blankLine [10] = [10] from rfl]
        simp only [List.cons_append, List.nil_append]
        congr 1
        exact ih r hlen
      have hf10 : (c == 10) = false := by simpa using h10
      by_cases h35 : (c == 35) = true
      · rw [if_neg (by simp [h35])]
        have hc : c = 35 := by simpa using h35
        subst hc
        rw [takeThroughNl_cons r hf10, dropThroughNl_cons r hf10, hf10]
        rw [rnpGo_false_decomp f r hlen]
        simp only [List.map_cons, bjoin, List.foldr_cons]
        rw [show blankLine (35 :: takeThroughNl r) = 35 :: takeThroughNl r from by
          show (if (!((35 : Nat) == 35) && !((35 : Nat) == 10)) = true
                then (35 :: takeThroughNl r).filter (fun b => b == 10)
                else 35 :: takeThroughNl r) = 35 :: takeThroughNl r
          rw [if_neg (by simp)]]
        simp only [List.cons_append]
        congr 2
        rw [ih (dropThroughNl r) (le_trans (dropThroughNl_length_le r) hlen)]
        rfl
      · rw [if_pos (by simp [h10, h35])]
        rw [rnpGo_false_decomp f (skipToNl r) (le_trans (skipToNl_length_le r) hlen)]
        rw [dropThroughNl_skipToNl r]
        rw [takeThroughNl_cons r hf10, dropThroughNl_cons r hf10]
        simp only [List.map_cons, bjoin, List.foldr_cons]
        rw [show blankLine (c :: takeThroughNl r)
            = (c :: takeThroughNl r).filter (fun b => b == 10) from by
          show (if (!(c == 35) && !(c == 10)) = true
                then (c :: takeThroughNl r).filter (fun b => b == 10)
                else c :: takeThroughNl r) = (c :: takeThroughNl r).filter (fun b => b == 10)
          rw [if_pos (by simp [h10, h35])]]
        simp only [List.filter]
        rw [hf10, filter_takeThroughNl r]
        congr 1
        rw [ih (dropThroughNl r) (le_trans (dropThroughNl_length_le r) hlen)]
        rfl

theorem replace_non_preproc_linewise (x : Buf) :
    replace_non_preproc x = bjoin ((splitKeepEnds x).map blankLine) :=
  rnpGo_linewise x.length x (le_refl _)

end Blockrepl

/-! ### parser.py and cfile.py — the metadata scanner -/

namespace Cfile

open Autoheaders

/-- Kinds of errors raised while scanning a C file.  `eofSearching` is
`Parser.accept`'s "Unexpected end of file while searching for ..." with the
searched-for bytes; `indexError`/`valueError` model the corresponding Python
exceptions; `outOfFuel` marks an exceeded step bound (never hit by a
successful run). -/
inductive ErrKind
  | eofSearching (target : Buf)
  | unexpectedEof
  | expectedEndif
  | unterminatedString
  | unterminatedChar
  | valueError
  | indexError
  | outOfFuel
  deriving DecidableEq, Repr

/-- A raised `ParseError`: kind plus the 1-indexed line and column that
`Parser.error` computed from the current position. -/
structure PErr where
  kind : ErrKind
  line : Nat
  col : Nat
  deriving DecidableEq, Repr

/-- Helper for `build_line_map`: positions after each newline. -/
def blmAux : Buf → Nat → List Nat
  | [], _ => []
  | c :: r, i => if c == 10 then (i + 1) :: blmAux r (i + 1) else blmAux r (i + 1)

/-- `parser.build_line_map`: 0 followed by the position after each `\n`. -/
def build_line_map (t : Buf) : List Nat := 0 :: blmAux t 0

/-- `Parser.pos_to_line`: `bisect_right(linemap, pos)`, which for a strictly
increasing list is the number of entries `≤ pos`. -/
def pos_to_line (t : Buf) (pos : Nat) : Nat :=
  (build_line_map t).countP (fun x => decide (x ≤ pos))

/-- `Parser.location`: 1-indexed line and column of position `i` (the linemap
index is in range because `pos_to_line` is at least 1 and at most the map's
length). -/
def location (t : Buf) (i : Nat) : Nat × Nat :=
  let line := pos_to_line t i
  let lpos := (build_line_map t).getD (max line 1 - 1) 0
  (line, i - lpos + 1)

/-- Build a `PErr` at position `i` (`Parser.error`). -/
def pyerr (t : Buf) (i : Nat) (k : ErrKind) : PErr :=
  ⟨k, (location t i).1, (location t i).2⟩

/-- Clamp of a Python slice bound: negative values count from the end. -/
def pyBound (len : Nat) (pos : Int) : Nat :=
  if pos < 0 then len - min len (-pos).toNat else min pos.toNat len

/-- `Parser.get_line_start`: `text.rfind(b"\n", 0, pos) + 1` (with Python's
negative-index semantics for `pos`). -/
def get_line_start (t : Buf) (pos : Int) : Nat :=
  match rfindByteBefore t (pyBound t.length pos) 10 with
  | some m => m + 1
  | none => 0

/-- `Parser.get_line_end`: `text.index(b"\n", pos)`, or the length when the
`ValueError` is caught. -/
def get_line_end (t : Buf) (pos : Nat) : Nat := (findByteFrom t pos 10).getD t.length

/-- `Parser.accept`: at end of input it raises; otherwise it consumes `pat`
when present, returning whether it did and the new position. -/
def accept (t : Buf) (i : Nat) (pat : Buf) : Except PErr (Bool × Nat) :=
  if i ≥ t.length then .error (pyerr t i (.eofSearching pat))
  else if startsWithAt t i pat then .ok (true, i + pat.length)
  else .ok (false, i)

/-- `Parser.get(1)`: the byte at the current position, raising at the end. -/
def getByte (t : Buf) (i : Nat) : Except PErr Nat :=
  if i ≥ t.length then .error (pyerr t i .unexpectedEof)
  else .ok (byteAt t i)

/-- The `(\\. | [^\\\n])*` part of `re_rest_of_line` (no DOTALL: an escaped
newline `\\\n` is consumed, a backslash at end of line or buffer stops the
loop). -/
def rolAux (t : Buf) : Nat → Nat → Nat
  | 0, i => i
  | f + 1, i =>
    if i < t.length && byteAt t i == 92 && i + 1 < t.length
        && !(byteAt t (i + 1) == 10) then rolAux t f (i + 2)
    else if i < t.length && !(byteAt t i == 92) && !(byteAt t i == 10) then rolAux t f (i + 1)
    else i

/-- `SimpleCParser.read_rest_of_line` (also `line_comment`): the match end of
`re_rest_of_line`, whose trailing `\n?` consumes a newline when present. -/
def read_rest_of_line (t : Buf) (i : Nat) : Nat :=
  let j := rolAux t (t.length + 1) i
  if j < t.length && byteAt t j == 10 then j + 1 else j

/-- `SimpleCParser.non_cond_preproc`: jump to the next `\n` (or the end when
the `ValueError` from `bytes.index` is caught). -/
def non_cond_preproc (t : Buf) (i : Nat) : Nat := (findByteFrom t i 10).getD t.length

/-- `re_preproc_if` matched at `i`: `(if|ifdef|ifndef)\s`, alternatives in
order, each requiring a following whitespace byte; result is the match end. -/
def matchIfKw (t : Buf) (i : Nat) : Option Nat :=
  if startsWithAt t i (s2b "if") && i + 2 < t.length && isSpaceB (byteAt t (i + 2)) then
    some (i + 3)
  else if startsWithAt t i (s2b "ifdef") && i + 5 < t.length && isSpaceB (byteAt t (i + 5)) then
    some (i + 6)
  else if startsWithAt t i (s2b "ifndef") && i + 6 < t.length && isSpaceB (byteAt t (i + 6)) then
    some (i + 7)
  else none

/-- Helper: first position `≥ base` whose byte is not `[^\S\n]` whitespace. -/
def skipWsNoNlAux : Buf → Nat → Nat
  | [], base => base
  | c :: r, base => if isSpaceNoNlB c then skipWsNoNlAux r (base + 1) else base

/-- See `skipWsNoNlAux`. -/
def skipWsNoNl (t : Buf) (i : Nat) : Nat := skipWsNoNlAux (t.drop i) i

/-- One line start tested against `re_preproc_next`'s alternatives
(`^[^\S\n]*\#(?:if|ifdef|ifndef)\s` before `^[^\S\n]*\#endif\b`); returns
`(isEnd, matchEnd)`. -/
def rpnAt (t : Buf) (p : Nat) : Option (Bool × Nat) :=
  let q := skipWsNoNl t p
  if q < t.length && byteAt t q == 35 then
    match matchIfKw t (q + 1) with
    | some e => some (false, e)
    | none =>
      if startsWithAt t (q + 1) (s2b "endif")
          && (decide (q + 6 ≥ t.length) || !(isWordB (byteAt t (q + 6)))) then
        some (true, q + 6)
      else none
  else none

/-- `re_preproc_next.search` (an `OrRegex`, MULTILINE): scan line starts from
`p` for the first start/end conditional directive; returns
`(isEnd, matchStart, matchEnd)`. -/
def rpnSearch (t : Buf) : Nat → Nat → Option (Bool × Nat × Nat)
  | 0, _ => none
  | f + 1, p =>
    if p > t.length then none
    else if p == 0 || byteAt t (p - 1) == 10 then
      match rpnAt t p with
      | some (isEnd, e) => some (isEnd, p, e)
      | none => rpnSearch t f (p + 1)
    else rpnSearch t f (p + 1)

/-- `SimpleCParser.block_comment`: advance until `*/` is consumed, raising
`accept`'s end-of-file error when the buffer ends first. -/
def block_comment (t : Buf) : Nat → Nat → Except PErr Nat
  | 0, _ => .error ⟨.outOfFuel, 0, 0⟩
  | f + 1, i =>
    match accept t i (s2b "*/") with
    | .error e => .error e
    | .ok (true, i') => .ok i'
    | .ok (false, _) => block_comment t f (i + 1)

/-- `re_rest_of_string`'s scan (`(\\.|[^\\"])*"`, DOTALL) from `i`:
the position after the closing quote, or `none` when the buffer ends. -/
def stringLitEnd (t : Buf) (quote : Nat) : Nat → Nat → Option Nat
  | 0, _ => none
  | f + 1, i =>
    if i ≥ t.length then none
    else if byteAt t i == quote then some (i + 1)
    else if byteAt t i == 92 then
      if i + 1 < t.length then stringLitEnd t quote f (i + 2) else none
    else stringLitEnd t quote f (i + 1)

/-- `SimpleCParser.string_literal` (position is already past the opening
quote). -/
def string_literal (t : Buf) (i : Nat) : Except PErr Nat :=
  match stringLitEnd t 34 (t.length + 1) i with
  | some e => .ok e
  | none => .error (pyerr t i .unterminatedString)

/-- `SimpleCParser.char_literal`. -/
def char_literal (t : Buf) (i : Nat) : Except PErr Nat :=
  match stringLitEnd t 39 (t.length + 1) i with
  | some e => .ok e
  | none => .error (pyerr t i .unterminatedChar)

mutual

/-- `SimpleCParser.cond_preproc` body after `read_rest_of_line`: repeat
`re_preproc_next.search`; an inner conditional is entered at its `#`
(via `text.index(b"#", match.start())`) and consumed recursively. -/
def cond_loop (t : Buf) : Nat → Nat → Nat → Except PErr (Nat × Nat)
  | 0, _, _ => .error ⟨.outOfFuel, 0, 0⟩
  | f + 1, start, i =>
    match rpnSearch t (t.length + 2) i with
    | none => .error (pyerr t i .expectedEndif)
    | some (true, _, me) => .ok (start, me)
    | some (false, ms, _) =>
      match findByteFrom t ms 35 with
      | none => .error ⟨.valueError, 0, 0⟩
      | some hp =>
        match cond_preproc t f hp with
        | .error e => .error e
        | .ok (_, iEnd) => cond_loop t f start iEnd

/-- `SimpleCParser.cond_preproc`: records the span from the directive start
(just after `#`) through the end of the matching `#endif`. -/
def cond_preproc (t : Buf) : Nat → Nat → Except PErr (Nat × Nat)
  | 0, _ => .error ⟨.outOfFuel, 0, 0⟩
  | f + 1, i => cond_loop t f i (read_rest_of_line t i)

end

/-- `SimpleCParser.preproc` (position is just past the `#`): returns
`(start, conditional end?, new position)`. -/
def preproc (t : Buf) (i : Nat) : Except PErr (Nat × Option Nat × Nat) :=
  match matchIfKw t i with
  | none =>
    let i' := non_cond_preproc t i
    .ok (i', none, i')
  | some _ =>
    match cond_preproc t (t.length + 2) i with
    | .error e => .error e
    | .ok (s, e) => .ok (s, some e, e)

mutual

/-- `SimpleCParser.read_single`: skip one lexical unit. -/
def read_single (t : Buf) : Nat → Nat → Except PErr Nat
  | 0, _ => .error ⟨.outOfFuel, 0, 0⟩
  | f + 1, i =>
    match accept t i (s2b "//") with
    | .error e => .error e
    | .ok (true, i1) => .ok (read_rest_of_line t i1)
    | .ok (false, _) =>
    match accept t i (s2b "/*") with
    | .error e => .error e
    | .ok (true, i1) => block_comment t (t.length + 1) i1
    | .ok (false, _) =>
    match getByte t i with
    | .error e => .error e
    | .ok c =>
      if c == 35 then
        match preproc t (i + 1) with
        | .error e => .error e
        | .ok (_, _, i') => .ok i'
      else if c == 34 then string_literal t (i + 1)
      else if c == 39 then char_literal t (i + 1)
      else if c == 40 then read_until_match t f (i + 1) (s2b ")")
      else if c == 123 then read_until_match t f (i + 1) (s2b "\x7d")
      else if c == 91 then read_until_match t f (i + 1) (s2b "]")
      else .ok (i + 1)

/-- `SimpleCParser.read_until_match`. -/
def read_until_match (t : Buf) : Nat → Nat → Buf → Except PErr Nat
  | 0, _, _ => .error ⟨.outOfFuel, 0, 0⟩
  | f + 1, i, pat =>
    match accept t i pat with
    | .error e => .error e
    | .ok (true, i') => .ok i'
    | .ok (false, _) =>
      match read_single t f i with
      | .error e => .error e
      | .ok i' => read_until_match t f i' pat

end

/-- Scanner state: position, recorded comments, recorded conditionals. -/
structure PState where
  i : Nat
  comments : List (Nat × Nat)
  preproc_ifs : List (Nat × Nat)
  deriving DecidableEq, Repr

/-- `SimpleCParser.parse_metadata_iter`: one top-level step; top-level
comments and conditional regions are recorded (`top_block_comment`,
`top_line_comment`, `top_preproc`). -/
def parse_metadata_iter (t : Buf) (st : PState) : Except PErr PState :=
  match accept t st.i (s2b "/*") with
  | .error e => .error e
  | .ok (true, i1) =>
    match block_comment t (t.length + 1) i1 with
    | .error e => .error e
    | .ok i2 => .ok ⟨i2, st.comments ++ [(i1, i2 - 2)], st.preproc_ifs⟩
  | .ok (false, _) =>
  match accept t st.i (s2b "//") with
  | .error e => .error e
  | .ok (true, i1) =>
    let i2 := read_rest_of_line t i1
    .ok ⟨i2, st.comments ++ [(i1, i2 - 1)], st.preproc_ifs⟩
  | .ok (false, _) =>
  match accept t st.i (s2b "#") with
  | .error e => .error e
  | .ok (true, i1) =>
    match preproc t i1 with
    | .error e => .error e
    | .ok (_, none, i2) => .ok ⟨i2, st.comments, st.preproc_ifs⟩
    | .ok (s, some e2, i2) => .ok ⟨i2, st.comments, st.preproc_ifs ++ [(s, e2)]⟩
  | .ok (false, _) =>
    match read_single t (t.length + 1) st.i with
    | .error e => .error e
    | .ok i' => .ok ⟨i', st.comments, st.preproc_ifs⟩

/-- `SimpleCParser.parse_metadata`: iterate until the end of the buffer. -/
def parse_metadata (t : Buf) : Nat → PState → Except PErr PState
  | 0, _ => .error ⟨.outOfFuel, 0, 0⟩
  | f + 1, st =>
    if st.i ≥ t.length then .ok st
    else
      match parse_metadata_iter t st with
      | .error e => .error e
      | .ok st' => parse_metadata t f st'

/-- A parsed C source file (`cfile.CSourceFile` after `parse_metadata`);
the pass's public/private flag is passed to the functions that need it. -/
structure CSourceFile where
  text : Buf
  comments : List (Nat × Nat)
  preproc_ifs : List (Nat × Nat)
  deriving DecidableEq, Repr, Inhabited

/-- Construct a `CSourceFile`: `Parser.__init__` appends a newline when the
text does not end with one, then `parse_metadata` runs. -/
def mkCSourceFile (raw : Buf) : Except PErr CSourceFile :=
  let t := if bytesEndsWith raw [10] then raw else raw ++ [10]
  match parse_metadata t (t.length + 1) ⟨0, [], []⟩ with
  | .error e => .error e
  | .ok st => .ok ⟨t, st.comments, st.preproc_ifs⟩

/-- `Parser.line_to_pos`: `linemap[max(lineno, 1) - 1]`, raising `IndexError`
when out of range. -/
def line_to_pos (cf : CSourceFile) (lineno : Nat) : Except PErr Nat :=
  match (build_line_map cf.text).get? (max lineno 1 - 1) with
  | some p => .ok p
  | none => .error ⟨.indexError, 0, 0⟩

/-- `SimpleCParser.find_var_decl_end`: skip lexical units until a top-level
`=` or `;`; returns `(position, is_definition, new position)`. -/
def find_var_decl_end (t : Buf) : Nat → Nat → Except PErr (Nat × Bool × Nat)
  | 0, _ => .error ⟨.outOfFuel, 0, 0⟩
  | f + 1, i =>
    match getByte t i with
    | .error e => .error e
    | .ok c =>
      if c == 61 || c == 59 then .ok (i, c == 61, i + 1)
      else
        match read_single t (t.length + 1) i with
        | .error e => .error e
        | .ok i' => find_var_decl_end t f i'

/-- `SimpleCParser.find_func_decl_end`: terminators are `{` or `;`. -/
def find_func_decl_end (t : Buf) : Nat → Nat → Except PErr (Nat × Bool × Nat)
  | 0, _ => .error ⟨.outOfFuel, 0, 0⟩
  | f + 1, i =>
    match getByte t i with
    | .error e => .error e
    | .ok c =>
      if c == 123 || c == 59 then .ok (i, c == 123, i + 1)
      else
        match read_single t (t.length + 1) i with
        | .error e => .error e
        | .ok i' => find_func_decl_end t f i'

/-- Whether the line starting at `p` matches `re_source_line`'s body:
optional non-newline whitespace then at least one non-whitespace byte. -/
def srcLineAt (t : Buf) (p : Nat) : Bool :=
  skipWsNoNl t p < t.length && !(byteAt t (skipWsNoNl t p) == 10)

/-- `SimpleCParser.get_next_source_line`: `re_source_line.search` from `i` —
the first non-blank line starting at or after `i`, without its newline. -/
def get_next_source_line (t : Buf) : Nat → Nat → Option Buf
  | 0, _ => none
  | f + 1, p =>
    if p > t.length then none
    else if (p == 0 || byteAt t (p - 1) == 10) && srcLineAt t p then
      some (slice t p (get_line_end t p))
    else get_next_source_line t f (p + 1)

/-- `cfile.remove_leading_indentation`: the first line's `[ \t]*` prefix is
removed from every line that begins with it (`re.sub` of the escaped prefix
anchored at line starts, MULTILINE). -/
def remove_leading_indentation (b : Buf) : Buf :=
  let ws := b.takeWhile (fun c => c == 32 || c == 9)
  bjoin ((splitKeepEnds b).map (fun l => if ws.isPrefixOf l then l.drop ws.length else l))

/-- The `\t+ | [ ]+` match of `normalize_indentation` on the reference line:
its maximal leading run of tabs, or of spaces. -/
def unitOf (l : Buf) : Option Buf :=
  match l with
  | [] => none
  | c :: _ =>
    if c == 9 then some (l.takeWhile (fun b => b == 9))
    else if c == 32 then some (l.takeWhile (fun b => b == 32))
    else none

/-- Maximal `k` such that `unit^k` is a prefix of `l` (the greedy
`((?:unit)*)` group of `normalize_indentation`'s fullmatch). -/
def countUnitReps (unit : Buf) : Nat → Buf → Nat
  | 0, _ => 0
  | f + 1, l =>
    if !(unit.isEmpty) && unit.isPrefixOf l then 1 + countUnitReps unit f (l.drop unit.length)
    else 0

/-- `cfile.normalize_indentation`: measure every line's indent in units of
the reference line's indent, collapse the sorted set of observed indent
sizes to consecutive ranks, and re-emit each line at its rank. -/
def normalize_indentation (b : Buf) (ref : Option Buf) : Buf :=
  match unitOf (ref.getD []) with
  | none => remove_leading_indentation b
  | some unit =>
    let lines := splitKeepEnds b
    let base := lines.map (fun l =>
      (countUnitReps unit (l.length + 1) l,
       l.drop (countUnitReps unit (l.length + 1) l * unit.length)))
    let sizes := base.map (fun p => p.1 * unit.length)
    let sortedSizes := (List.range (sizes.foldr max 0 + 1)).filter (fun n => sizes.contains n)
    bjoin (base.map (fun p =>
      bjoin (List.replicate (sortedSizes.indexOf (p.1 * unit.length)) unit) ++ p.2))

/-- `CSourceFile.get_var_decl_start`: raw text from the line start to the
variable terminator, stripped; also returns `is_definition` and the parser
position after the terminator. -/
def get_var_decl_start (cf : CSourceFile) (lineno : Nat) : Except PErr (Buf × Bool × Nat) :=
  match line_to_pos cf lineno with
  | .error e => .error e
  | .ok start =>
    match find_var_decl_end cf.text (cf.text.length + 1) start with
    | .error e => .error e
    | .ok (endp, isdef, i') => .ok (pyStrip (slice cf.text start endp), isdef, i')

/-- `CSourceFile.get_func_decl_start`. -/
def get_func_decl_start (cf : CSourceFile) (lineno : Nat) : Except PErr (Buf × Bool × Nat) :=
  match line_to_pos cf lineno with
  | .error e => .error e
  | .ok start =>
    match find_func_decl_end cf.text (cf.text.length + 1) start with
    | .error e => .error e
    | .ok (endp, isdef, i') => .ok (pyStrip (slice cf.text start endp), isdef, i')

/-- The `while start < end` binary search of
`CSourceFile.get_comment_pos_before`; returns the final `start`. -/
def gcpbGo (comments : List (Nat × Nat)) (pos : Nat) : Nat → Nat → Nat → Nat
  | 0, s, _ => s
  | f + 1, s, e =>
    if s < e then
      let m := (s + e) / 2
      let ce := (comments.getD m (0, 0)).2
      if ce < pos then gcpbGo comments pos f (m + 1) e
      else if ce > pos then gcpbGo comments pos f s m
      else m
    else s

/-- `CSourceFile.get_comment_pos_before`: the last comment whose end is
strictly before `pos`, or `None`. -/
def get_comment_pos_before (cf : CSourceFile) (pos : Nat) : Option (Nat × Nat) :=
  let s := gcpbGo cf.comments pos (cf.comments.length + 2) 0 cf.comments.length
  if s < 1 then none else some (cf.comments.getD (s - 1) (0, 0))

/-- `CSourceFile.get_comment_pos_directly_before`. -/
def get_comment_pos_directly_before (cf : CSourceFile) (pos : Nat) : Option (Nat × Nat) :=
  match get_comment_pos_before cf pos with
  | none => none
  | some (s, e) =>
    let prev_line_start := get_line_start cf.text ((get_line_start cf.text (pos : Int) : Int) - 1)
    if prev_line_start > e then none else some (s, e)

/-- The chaining loop of `get_min_comment_start_directly_before`. -/
def gmcsGo (cf : CSourceFile) : Nat → Nat → Nat
  | 0, s => s
  | f + 1, s =>
    match get_comment_pos_directly_before cf s with
    | none => s
    | some (cs, _) => gmcsGo cf f cs

/-- `CSourceFile.get_min_comment_start_directly_before`. -/
def get_min_comment_start_directly_before (cf : CSourceFile) (pos : Nat) : Option Nat :=
  let s := gmcsGo cf (pos + 1) pos
  if s == pos then none else some s

/-- `CSourceFile.get_comment_before`: full lines of the comment block, if
any, directly above the given line. -/
def get_comment_before (cf : CSourceFile) (lineno : Nat) : Except PErr Buf :=
  match line_to_pos cf lineno with
  | .error e => .error e
  | .ok pos =>
    match get_min_comment_start_directly_before cf pos with
    | none => .ok []
    | some s =>
      .ok (slice cf.text (get_line_start cf.text (s : Int)) (get_line_start cf.text (pos : Int)))

/-- `CSourceFile.make_func_decl`. -/
def make_func_decl (cf : CSourceFile) (lineno : Nat) : Except PErr Buf :=
  match get_func_decl_start cf lineno with
  | .error e => .error e
  | .ok (declStart, _, i') =>
    let nextLine := get_next_source_line cf.text (cf.text.length + 2) i'
    match get_comment_before cf lineno with
    | .error e => .error e
    | .ok comment =>
      .ok (remove_leading_indentation comment
        ++ normalize_indentation declStart nextLine ++ s2b ";\n")

/-- `CSourceFile.make_plain_var_decl`. -/
def make_plain_var_decl (cf : CSourceFile) (lineno : Nat) : Except PErr Buf :=
  match get_var_decl_start cf lineno with
  | .error e => .error e
  | .ok (declStart, _, _) =>
    match get_comment_before cf lineno with
    | .error e => .error e
    | .ok comment =>
      .ok (remove_leading_indentation (comment ++ declStart ++ s2b ";\n"))

/-- `CSourceFile.make_extern_var_decl`. -/
def make_extern_var_decl (cf : CSourceFile) (lineno : Nat) : Except PErr Buf :=
  match get_var_decl_start cf lineno with
  | .error e => .error e
  | .ok (declStart, _, _) =>
    match get_comment_before cf lineno with
    | .error e => .error e
    | .ok comment =>
      .ok (remove_leading_indentation (comment ++ s2b "extern " ++ declStart ++ s2b ";\n"))

/-- `CSourceFile.header_preproc_match`: `re.fullmatch(rb"ifdef (.*)", s)`
(the remainder may not contain a newline) with the captured name compared
against `ANY_HEADER` and `PRIVATE_HEADER`/`HEADER` by visibility. -/
def header_preproc_match (priv : Bool) (s : Buf) : Bool :=
  (s2b "ifdef ").isPrefixOf s && (s.drop 6).all (fun c => !(c == 10))
    && ((s.drop 6) == s2b "ANY_HEADER"
        || (s.drop 6) == (if priv then s2b "PRIVATE_HEADER" else s2b "HEADER"))

/-- `CSourceFile.get_header_chunks` (the method takes no arguments besides
`self`; the pass's visibility flag stands for `self.private`). -/
def get_header_chunks (cf : CSourceFile) (priv : Bool) : List Buf :=
  cf.preproc_ifs.filterMap (fun se =>
    let chunk_start := get_line_end cf.text se.1 + 1
    let preproc_start := pyStrip (slice cf.text se.1 chunk_start)
    if header_preproc_match priv preproc_start then
      some (remove_leading_indentation
        (stripNl (slice cf.text chunk_start (get_line_start cf.text (se.2 : Int))) ++ [10]))
    else none)

/-- `bytes.split(b" ", 1)[1]`: everything after the first space. -/
def afterFirstSpace (b : Buf) : Buf := (b.dropWhile (fun c => !(c == 32))).drop 1

/-- The comment loop of `CSourceFile.get_guard_name`. -/
def guardNameIn (t : Buf) : List (Nat × Nat) → Option Buf
  | [] => none
  | (s, e) :: r =>
    let ct := pyStrip (slice t s e)
    if (s2b "@guard ").isPrefixOf ct then some (afterFirstSpace ct) else guardNameIn t r

/-- `CSourceFile.get_guard_name`: the first `@guard`-annotated comment wins. -/
def get_guard_name (cf : CSourceFile) : Option Buf := guardNameIn cf.text cf.comments

/-- `CSourceFile.is_in_preproc_cond`: the line's start offset against the
recorded regions, start inclusive, end exclusive. -/
def is_in_preproc_cond (cf : CSourceFile) (lineno : Nat) : Except PErr Bool :=
  match line_to_pos cf lineno with
  | .error e => .error e
  | .ok pos =>
    .ok (cf.preproc_ifs.any (fun se => decide (se.1 ≤ pos) && decide (pos < se.2)))

end Cfile

/-! ### precpp.py — the include filter -/

namespace Precpp

open Autoheaders

/-- Kinds of errors from the include filter (`PreCPPParseError`). -/
inductive PCKind
  | endifUnmatched
  | valueError
  | outOfFuel
  deriving DecidableEq, Repr

/-- `PreCPPParseError` coordinates from `coords_from_pos`. -/
structure PCErr where
  kind : PCKind
  line : Nat
  col : Nat
  deriving DecidableEq, Repr

/-- `precpp.coords_from_pos`. -/
def coords_from_pos (t : Buf) (pos : Nat) : Nat × Nat :=
  let lineno := countNL (t.take pos) + 1
  let line_start :=
    match rfindByteBefore t pos 10 with
    | some m => m + 1
    | none => 0
  (lineno, pos - line_start + 1)

/-- First position `≥ base` whose byte is not Python `\s` (all whitespace,
newlines included). -/
def skipAllWsAux : Buf → Nat → Nat
  | [], base => base
  | c :: r, base => if isSpaceB c then skipAllWsAux r (base + 1) else base

/-- See `skipAllWsAux`. -/
def skipAllWs (t : Buf) (i : Nat) : Nat := skipAllWsAux (t.drop i) i

/-- First position `≥ k` where `*/` occurs (the lazy `.*? [*]/` of the
`block_comment` alternative). -/
def findStarSlash (t : Buf) : Nat → Nat → Option Nat
  | 0, _ => none
  | f + 1, k =>
    if k + 2 > t.length then none
    else if startsWithAt t k (s2b "*/") then some k
    else findStarSlash t f (k + 1)

/-- Tags of `IncludeParser.regex`, in declaration order. -/
inductive IPTag
  | stringT
  | charT
  | preproc
  | lineComment
  | blockComment
  deriving DecidableEq, Repr

/-- Alternatives of `IncludeParser.regex` tried in order at `p`; returns the
match end.  String and char literals use the lazy escaped scan
(`Blockrepl.findClose`); the `preproc` alternative anchors at a line start
and swallows `[^\S\n]* \# [^\n]*`. -/
def ipAltsAt (t : Buf) (p : Nat) : Option (IPTag × Nat) :=
  if byteAt t p == 34 && p < t.length then
    match Blockrepl.findClose t 34 t.length (p + 1) with
    | some e => some (IPTag.stringT, e + 1)
    | none => none
  else if byteAt t p == 39 && p < t.length then
    match Blockrepl.findClose t 39 t.length (p + 1) with
    | some e => some (IPTag.charT, e + 1)
    | none => none
  else if (p == 0 || byteAt t (p - 1) == 10) && Cfile.skipWsNoNl t p < t.length
      && byteAt t (Cfile.skipWsNoNl t p) == 35 then
    some (IPTag.preproc, (findByteFrom t (Cfile.skipWsNoNl t p + 1) 10).getD t.length)
  else if startsWithAt t p (s2b "//") then
    some (IPTag.lineComment, (findByteFrom t (p + 2) 10).getD t.length)
  else if startsWithAt t p (s2b "/*") then
    match findStarSlash t (t.length + 1) (p + 2) with
    | some k => some (IPTag.blockComment, k + 2)
    | none => none
  else none

/-- `OrRegex.search` for `IncludeParser.regex`: leftmost match, first
alternative; returns `(tag, match start, match end)`. -/
def ipSearch (t : Buf) : Nat → Nat → Option (IPTag × Nat × Nat)
  | 0, _ => none
  | f + 1, p =>
    if p ≥ t.length then none
    else
      match ipAltsAt t p with
      | some (tag, e) => some (tag, p, e)
      | none => ipSearch t f (p + 1)

/-- `preproc_endif_regex.match` at `ps`: `endif (?:\s|$)`. -/
def endifMatch (t : Buf) (ps : Nat) : Bool :=
  startsWithAt t ps (s2b "endif")
    && (decide (ps + 5 = t.length) || isSpaceB (byteAt t (ps + 5)))

/-- `preproc_include_regex.match` at `ps`: `include \s`. -/
def includeMatch (t : Buf) (ps : Nat) : Bool :=
  startsWithAt t ps (s2b "include") && ps + 7 < t.length && isSpaceB (byteAt t (ps + 7))

/-- The `\s* $` tail (no MULTILINE): some backtrack of the whitespace run
must land on the end of the buffer (a `$` just before a final newline is
unreachable, since the first non-`\s` position cannot carry that newline). -/
def wsToEnd (t : Buf) (e : Nat) : Bool := skipAllWs t e == t.length

/-- The `\s* $` tail with MULTILINE: some backtrack of the whitespace run
must land on the buffer end or just before a newline (which must then be
inside the whitespace run itself). -/
def wsLineEnd (t : Buf) (e : Nat) : Bool :=
  skipAllWs t e == t.length || (slice t e (skipAllWs t e)).any (fun c => c == 10)

/-- `preproc_header_block_regex.match` at `ps`:
`ifdef \s* (HEADER|PRIVATE_HEADER|ANY_HEADER) \s* $` (MULTILINE).  The macro
must start at the first non-`\s` byte after `ifdef`, and the tail must be
whitespace up to a line end. -/
def headerBlockMatch (t : Buf) (ps : Nat) : Bool :=
  startsWithAt t ps (s2b "ifdef")
    && (let j := skipAllWs t (ps + 5)
        (s2b "HEADER").isPrefixOf (t.drop j) && wsLineEnd t (j + 6)
        || (s2b "PRIVATE_HEADER").isPrefixOf (t.drop j) && wsLineEnd t (j + 14)
        || (s2b "ANY_HEADER").isPrefixOf (t.drop j) && wsLineEnd t (j + 10))

/-- `IncludeParser` state. -/
structure IPState where
  pos : Nat
  level : Int
  stack : List Bool
  includes : List (Nat × Nat)
  deriving DecidableEq, Repr

/-- `IncludeParser.parse_iter`. -/
def parse_iter (t : Buf) (st : IPState) : Except PCErr IPState :=
  match ipSearch t (t.length + 1) st.pos with
  | none => .ok { st with pos := t.length }
  | some (tag, ms, me) =>
    let st1 : IPState := { st with pos := me }
    if tag ≠ IPTag.preproc then .ok st1
    else
      match findByteFrom t ms 35 with
      | none => .error ⟨.valueError, 0, 0⟩
      | some hp =>
        let ps := hp + 1
        if (Cfile.matchIfKw t ps).isSome then
          .ok { st1 with
            level := st1.level + 1,
            stack := headerBlockMatch t ps :: st1.stack }
        else if endifMatch t ps then
          if st1.level - 1 < 0 then
            .error ⟨.endifUnmatched, (coords_from_pos t st1.pos).1, (coords_from_pos t st1.pos).2⟩
          else .ok { st1 with level := st1.level - 1, stack := st1.stack.tail }
        else if includeMatch t ps then
          if st1.stack.headD false then .ok st1
          else .ok { st1 with includes := st1.includes ++ [(ms, me)] }
        else .ok st1

/-- `IncludeParser.parse`. -/
def ipParse (t : Buf) : Nat → IPState → Except PCErr IPState
  | 0, _ => .error ⟨.outOfFuel, 0, 0⟩
  | f + 1, st =>
    if st.pos ≥ t.length then .ok st
    else
      match parse_iter t st with
      | .error e => .error e
      | .ok st' => ipParse t f st'

/-- One alternative of `keep_include_regex` at `p`; returns the group end. -/
def matchKeepAt (l : Buf) (p : Nat) : Option Nat :=
  if startsWithAt l p (s2b "//") then
    let j := skipAllWs l (p + 2)
    if (s2b "@include").isPrefixOf (l.drop j) then some (j + 8) else none
  else if startsWithAt l p (s2b "/*") then
    let j := skipAllWs l (p + 2)
    if (s2b "@include").isPrefixOf (l.drop j) then
      let k := skipAllWs l (j + 8)
      if startsWithAt l k (s2b "*/") then some (k + 2) else none
    else none
  else none

/-- `precpp.should_keep_include`: `keep_include_regex.search(line)` — a
trailing `// @include` or `/* @include */` annotation followed only by
whitespace. -/
def should_keep_include (line : Buf) : Bool :=
  (List.range (line.length + 1)).any (fun p =>
    match matchKeepAt line p with
    | some e => wsToEnd line e
    | none => false)

/-- The `parts` loop of `precpp.replace_includes`. -/
def riBuild (t : Buf) (pos : Nat) : List (Nat × Nat) → Buf
  | [] => t.drop pos
  | (s, e) :: r =>
    if should_keep_include (slice t s e) then riBuild t pos r
    else slice t pos s ++ riBuild t e r

/-- `precpp.replace_includes`. -/
def replace_includes (t : Buf) : Except PCErr Buf :=
  match ipParse t (t.length + 1) ⟨0, 0, [false], []⟩ with
  | .error e => .error e
  | .ok st => .ok (riBuild t 0 st.includes)

end Precpp

/-! ### generator.py — the header assembler -/

namespace Generator

open Autoheaders

/-- Errors of a generation pass: a propagated scan error, or the `TypeError`
Python raises when a method is called with the wrong number of arguments. -/
inductive GenErr
  | typeError
  | parseErr (e : Cfile.PErr)
  deriving DecidableEq, Repr

/-- Pass state: bytes written to the output file so far, the blank-line
separator flag `_first`, and `last_decl_lineno` (reset by the `outfile`
setter). -/
structure GState where
  output : Buf
  first : Bool
  last_decl_lineno : Nat
  deriving DecidableEq, Repr

/-- A Declaration record as the visitor sees it: a variable declaration
(`visit_TypeDecl`/`visit_PtrDecl`/`visit_ArrayDecl` with a dimension), a
function prototype (`visit_FuncDecl` outside a function definition), or a
function definition (`visit_FuncDef`); each carries the pycparser `storage`
list and `coord.line`. -/
inductive CNode
  | varDecl (storage : List String) (lineno : Nat)
  | funcDeclOnly (storage : List String) (lineno : Nat)
  | funcDef (storage : List String) (lineno : Nat)
  deriving DecidableEq, Repr

/-- Number of parameters besides `self` in the definition of
`CSourceFile.get_header_chunks` (cfile.py line 421: `def
get_header_chunks(self)`). -/
def get_header_chunks_param_count : Nat := 0

/-- `text.replace(b"\r\n", b"\n")` in `HeaderGenerator.write_raw`. -/
def crlfToLf : Buf → Buf
  | [] => []
  | 13 :: 10 :: r => 10 :: crlfToLf r
  | c :: r => c :: crlfToLf r

/-- `HeaderGenerator.write_raw`. -/
def write_raw (st : GState) (text : Buf) : GState :=
  { st with output := st.output ++ crlfToLf text }

/-- `HeaderGenerator.write_chunk`: separate fragments by one blank line. -/
def write_chunk (st : GState) (text : Buf) : GState :=
  let st1 := if !st.first then { st with output := st.output ++ [10] } else st
  write_raw { st1 with first := false } text

/-- A call of `self.cfile.get_header_chunks(...)` with the given positional
argument list: Python raises `TypeError` when the count does not match the
method's parameter count, and only otherwise runs the method body. -/
def callGetHeaderChunks (cf : Cfile.CSourceFile) (priv : Bool) (args : List (Option Nat)) :
    Except GenErr (List Buf) :=
  if args.length ≠ get_header_chunks_param_count then .error .typeError
  else .ok (Cfile.get_header_chunks cf priv)

/-- `HeaderGenerator.write_decl_chunk`: its first statement is
`self.cfile.get_header_chunks(self.last_decl_lineno, lineno)` — two
positional arguments. -/
def write_decl_chunk (cf : Cfile.CSourceFile) (priv : Bool) (st : GState) (text : Buf)
    (lineno : Nat) : Except GenErr GState :=
  match callGetHeaderChunks cf priv [some st.last_decl_lineno, some lineno] with
  | .error e => .error e
  | .ok chunks => .ok (write_chunk (chunks.foldl write_chunk st) text)

/-- `HeaderGenerator.write_remaining_marked_chunks`:
`self.cfile.get_header_chunks(self.last_decl_lineno, None)`. -/
def write_remaining_marked_chunks (cf : Cfile.CSourceFile) (priv : Bool) (st : GState) :
    Except GenErr GState :=
  match callGetHeaderChunks cf priv [some st.last_decl_lineno, none] with
  | .error e => .error e
  | .ok chunks => .ok (chunks.foldl write_chunk st)

/-- The guard chain of `HeaderGenerator.on_var_decl` (generator.py lines
167-177): `True` iff control reaches the `write_decl_chunk` call — not
`extern`, `static` matching the pass's visibility, and the line not inside a
preprocessor conditional. -/
def var_decl_selected (cf : Cfile.CSourceFile) (storage : List String) (lineno : Nat)
    (priv : Bool) : Except Cfile.PErr Bool :=
  if "extern" ∈ storage then .ok false
  else if decide ("static" ∈ storage) != priv then .ok false
  else
    match Cfile.is_in_preproc_cond cf lineno with
    | .error e => .error e
    | .ok true => .ok false
    | .ok false => .ok true

/-- The guard chain of `HeaderGenerator.visit_FuncDecl` for a node inside a
function definition (generator.py lines 186-197): the storage is tested only
for `static`, never for `extern`. -/
def func_def_selected (cf : Cfile.CSourceFile) (storage : List String) (lineno : Nat)
    (priv : Bool) : Except Cfile.PErr Bool :=
  if decide ("static" ∈ storage) != priv then .ok false
  else
    match Cfile.is_in_preproc_cond cf lineno with
    | .error e => .error e
    | .ok true => .ok false
    | .ok false => .ok true

/-- Visit one Declaration record: render the declaration text, then call
`write_decl_chunk` (whose argument mismatch raises), advancing
`last_decl_lineno` on success.  A `visit_FuncDecl` outside a function
definition returns immediately. -/
def processNode (cf : Cfile.CSourceFile) (priv : Bool) (st : GState) : CNode → Except GenErr GState
  | .funcDeclOnly _ _ => .ok st
  | .varDecl storage lineno =>
    match var_decl_selected cf storage lineno priv with
    | .error e => .error (.parseErr e)
    | .ok false => .ok st
    | .ok true =>
      match (if priv then Cfile.make_plain_var_decl cf lineno
             else Cfile.make_extern_var_decl cf lineno) with
      | .error e => .error (.parseErr e)
      | .ok text =>
        match write_decl_chunk cf priv st text lineno with
        | .error e => .error e
        | .ok st' => .ok { st' with last_decl_lineno := lineno }
  | .funcDef storage lineno =>
    match func_def_selected cf storage lineno priv with
    | .error e => .error (.parseErr e)
    | .ok false => .ok st
    | .ok true =>
      match Cfile.make_func_decl cf lineno with
      | .error e => .error (.parseErr e)
      | .ok text =>
        match write_decl_chunk cf priv st text lineno with
        | .error e => .error e
        | .ok st' => .ok { st' with last_decl_lineno := lineno }

/-- `HeaderGenerator.write_from_ast`: visit the file's Declaration records in
order; an exception aborts the pass, leaving the bytes already written. -/
def write_from_ast (cf : Cfile.CSourceFile) (priv : Bool) :
    GState → List CNode → GState × Option GenErr
  | st, [] => (st, none)
  | st, d :: r =>
    match processNode cf priv st d with
    | .ok st' => write_from_ast cf priv st' r
    | .error e => (st, some e)

/-- `HeaderGenerator.write_guard_start`. -/
def write_guard_start (cf : Cfile.CSourceFile) (priv : Bool) (st : GState) : Bool × GState :=
  if priv then (false, st)
  else
    match Cfile.get_guard_name cf with
    | none => (false, st)
    | some g =>
      (true, write_raw (write_raw st (s2b "#ifndef " ++ g ++ [10]))
        (s2b "#define " ++ g ++ [10, 10]))

/-- `HeaderGenerator.write_guard_end`. -/
def write_guard_end (priv : Bool) (st : GState) : GState :=
  if priv then st else write_raw st (s2b "\n#endif\n")

/-- `HeaderGenerator.write_all`: guard start, the visitor pass, the remaining
marked chunks, guard end; the result is the bytes written to the output file
and whether the pass completed or raised. -/
def write_all (cf : Cfile.CSourceFile) (decls : List CNode) (priv : Bool) :
    Buf × Except GenErr Unit :=
  let st0 : GState := ⟨[], true, 1⟩
  let gs := write_guard_start cf priv st0
  match write_from_ast cf priv gs.2 decls with
  | (stE, some e) => (stE.output, .error e)
  | (st2, none) =>
    match write_remaining_marked_chunks cf priv st2 with
    | .error e => (st2.output, .error e)
    | .ok st3 => ((if gs.1 then write_guard_end priv st3 else st3).output, .ok ())

/-- The bytes `write_guard_start` writes on a fresh pass. -/
def guard_bytes (cf : Cfile.CSourceFile) (priv : Bool) : Buf :=
  ((write_guard_start cf priv ⟨[], true, 1⟩).2).output

/-- A whole generation pass as driven by `generate_headers`:
`HeaderGenerator.__init__` builds the `CSourceFile` (scan errors propagate),
then `write_all` runs with the Declaration records the external AST provider
returned for this file. -/
def generatePass (raw : Buf) (decls : List CNode) (priv : Bool) :
    Buf × Except GenErr Unit :=
  match Cfile.mkCSourceFile raw with
  | .error e => ([], .error (.parseErr e))
  | .ok cf => write_all cf decls priv

end Generator

/-! ### Facts about the header assembler -/

namespace Generator

theorem write_decl_chunk_typeError (cf : Cfile.CSourceFile) (priv : Bool) (st : GState)
    (text : Buf) (lineno : Nat) :
    write_decl_chunk cf priv st text lineno = .error .typeError := rfl

theorem write_remaining_typeError (cf : Cfile.CSourceFile) (priv : Bool) (st : GState) :
    write_remaining_marked_chunks cf priv st = .error .typeError := rfl

theorem processNode_ok_eq (cf : Cfile.CSourceFile) (priv : Bool) (st : GState) :
    ∀ d st', processNode cf priv st d = .ok st' → st' = st := by
  intro d st' h
  cases d with
  | funcDeclOnly s l =>
    injection h with h
    exact h.symm
  | varDecl storage lineno =>
    unfold processNode at h
    cases hs : var_decl_selected cf storage lineno priv with
    | error e => simp only [hs] at h; cases h
    | ok b =>
      cases b with
      | false =>
        simp only [hs] at h
        injection h with h
        exact h.symm
      | true =>
        simp only [hs] at h
        cases hm : (if priv then Cfile.make_plain_var_decl cf lineno
            else Cfile.make_extern_var_decl cf lineno) with
        | error e => simp only [hm] at h; cases h
        | ok text =>
          simp only [hm, write_decl_chunk_typeError] at h
          cases h
  | funcDef storage lineno =>
    unfold processNode at h
    cases hs : func_def_selected cf storage lineno priv with
    | error e => simp only [hs] at h; cases h
    | ok b =>
      cases b with
      | false =>
        simp only [hs] at h
        injection h with h
        exact h.symm
      | true =>
        simp only [hs] at h
        cases hm : Cfile.make_func_decl cf lineno with
        | error e => simp only [hm] at h; cases h
        | ok text =>
          simp only [hm, write_decl_chunk_typeError] at h
          cases h

theorem write_from_ast_fst (cf : Cfile.CSourceFile) (priv : Bool) :
    ∀ (ds : List CNode) (st : GState), (write_from_ast cf priv st ds).1 = st := by
  intro ds
  induction ds with
  | nil => intro st; rfl
  | cons d r ih =>
    intro st
    show (match processNode cf priv st d with
          | .ok st' => write_from_ast cf priv st' r
          | .error e => (st, some e)).1 = st
    cases h : processNode cf priv st d with
    | ok st' =>
      have heq := processNode_ok_eq cf priv st d st' h
      rw [ih st', heq]
    | error e => rfl

theorem write_all_error (cf : Cfile.CSourceFile) (decls : List CNode) (priv : Bool) :
    ∃ e, write_all cf decls priv = (guard_bytes cf priv, .error e) := by
  have hfst := write_from_ast_fst cf priv decls (write_guard_start cf priv ⟨[], true, 1⟩).2
  show ∃ e, (match write_from_ast cf priv (write_guard_start cf priv ⟨[], true, 1⟩).2 decls with
    | (stE, some er) => (stE.output, Except.error er)
    | (st2, none) =>
      match write_remaining_marked_chunks cf priv st2 with
      | .error er => (st2.output, .error er)
      | .ok st3 =>
        ((if (write_guard_start cf priv ⟨[], true, 1⟩).1 then write_guard_end priv st3
          else st3).output, .ok ())) = (guard_bytes cf priv, .error e)
  cases hfa : write_from_ast cf priv (write_guard_start cf priv ⟨[], true, 1⟩).2 decls with
  | mk stE err =>
    rw [hfa] at hfst
    simp only at hfst
    subst hfst
    cases err with
    | some er => exact ⟨er, rfl⟩
    | none => exact ⟨.typeError, rfl⟩

end Generator


/-! ### Stepping lemmas for the metadata scan's top-level loop -/

namespace Cfile

theorem parse_metadata_step (t : Buf) (f : Nat) (st st' : PState)
    (hlt : ¬ st.i ≥ t.length) (hit : parse_metadata_iter t st = .ok st') :
    parse_metadata t (f + 1) st = parse_metadata t f st' := by
  show (if st.i ≥ t.length then Except.ok st
        else match parse_metadata_iter t st with
          | .error e => Except.error e
          | .ok st2 => parse_metadata t f st2) = parse_metadata t f st'
  rw [if_neg hlt, hit]

theorem parse_metadata_done (t : Buf) (f : Nat) (st : PState) (h : st.i ≥ t.length) :
    parse_metadata t (f + 1) st = .ok st := by
  show (if st.i ≥ t.length then Except.ok st
        else match parse_metadata_iter t st with
          | .error e => Except.error e
          | .ok st2 => parse_metadata t f st2) = Except.ok st
  rw [if_pos h]

theorem mkCSourceFile_eq_of (raw : Buf) (st : PState)
    (hnl : bytesEndsWith raw [10] = true)
    (h : parse_metadata raw (raw.length + 1) ⟨0, [], []⟩ = .ok st) :
    mkCSourceFile raw = .ok ⟨raw, st.comments, st.preproc_ifs⟩ := by
  show (match parse_metadata (if bytesEndsWith raw [10] then raw else raw ++ [10])
          ((if bytesEndsWith raw [10] then raw else raw ++ [10]).length + 1) ⟨0, [], []⟩ with
        | .error e => (Except.error e : Except PErr CSourceFile)
        | .ok st2 => Except.ok (CSourceFile.mk
            (if bytesEndsWith raw [10] then raw else raw ++ [10])
            st2.comments st2.preproc_ifs))
      = Except.ok (CSourceFile.mk raw st.comments st.preproc_ifs)
  simp only [if_pos hnl]
  rw [h]

end Cfile

/-! ### The claims -/

/-- The source file of the specification's header-generation scenario. -/
def scenarioText : Buf :=
  s2b "#ifdef HEADER\nvoid foo(int x);\n#endif\nstatic int g_count = 0;\nint compute(int x) \x7b\n    return x;\n\x7d\n"

/-- The Declaration records pycparser reports for the scenario (in file
order): the prototype of `foo` at line 2, the static variable `g_count` at
line 4, and the function definition `compute` at line 5. -/
def scenarioDecls : List Generator.CNode :=
  [Generator.CNode.funcDeclOnly [] 2,
   Generator.CNode.varDecl ["static"] 4,
   Generator.CNode.funcDef [] 5]

/-- C10: `HeaderGenerator.write_decl_chunk` calls
`CSourceFile.get_header_chunks` with two positional arguments while the
method accepts none besides `self`, so the call raises `TypeError` (as does
`write_remaining_marked_chunks`); consequently the output of any pass is
exactly the guard bytes written before the failure — no header containing a
synthesized declaration is ever produced, and guard lines already written
remain written. -/
theorem c10_get_header_chunks_arity (cf : Cfile.CSourceFile) (priv : Bool)
    (st : Generator.GState) (text : Buf) (lineno : Nat) (decls : List Generator.CNode) :
    Generator.write_decl_chunk cf priv st text lineno
        = .error Generator.GenErr.typeError
      ∧ Generator.write_remaining_marked_chunks cf priv st
        = .error Generator.GenErr.typeError
      ∧ (Generator.write_all cf decls priv).1 = Generator.guard_bytes cf priv
      ∧ (Generator.write_all cf decls priv).2 ≠ .ok () := by
  obtain ⟨e, he⟩ := Generator.write_all_error cf decls priv
  refine ⟨rfl, rfl, by rw [he], ?_⟩
  rw [he]
  intro hc
  cases hc

/-- The scenario source after `parse_metadata`: no comments, one conditional
region (from just after the `#` of `#ifdef HEADER` through the end of
`#endif`). -/
def scenarioCf : Cfile.CSourceFile := ⟨scenarioText, [], [(1, 37)]⟩

/-- The metadata scan of the scenario source, stepped through the top-level
loop of `parse_metadata` (states as recorded after each lexical unit). -/
theorem scenario_scan : Cfile.mkCSourceFile scenarioText = .ok scenarioCf := by
  have h100 : Cfile.parse_metadata scenarioText 100 ⟨0, [], []⟩
      = .ok ⟨99, [], [(1, 37)]⟩ := by
    rw [show (100 : Nat) = 99 + 1 from rfl,
      Cfile.parse_metadata_step scenarioText 99 ⟨0, [], []⟩ ⟨37, [], [(1, 37)]⟩
        (by decide) (by rfl)]
    rw [show (99 : Nat) = 98 + 1 from rfl,
      Cfile.parse_metadata_step scenarioText 98 ⟨37, [], [(1, 37)]⟩ ⟨38, [], [(1, 37)]⟩
        (by decide) (by rfl)]
    rw [show (98 : Nat) = 97 + 1 from rfl,
      Cfile.parse_metadata_step scenarioText 97 ⟨38, [], [(1, 37)]⟩ ⟨39, [], [(1, 37)]⟩
        (by decide) (by rfl)]
    rw [show (97 : Nat) = 96 + 1 from rfl,
      Cfile.parse_metadata_step scenarioText 96 ⟨39, [], [(1, 37)]⟩ ⟨40, [], [(1, 37)]⟩
        (by decide) (by rfl)]
    rw [show (96 : Nat) = 95 + 1 from rfl,
      Cfile.parse_metadata_step scenarioText 95 ⟨40, [], [(1, 37)]⟩ ⟨41, [], [(1, 37)]⟩
        (by decide) (by rfl)]
    rw [show (95 : Nat) = 94 + 1 from rfl,
      Cfile.parse_metadata_step scenarioText 94 ⟨41, [], [(1, 37)]⟩ ⟨42, [], [(1, 37)]⟩
        (by decide) (by rfl)]
    rw [show (94 : Nat) = 93 + 1 from rfl,
      Cfile.parse_metadata_step scenarioText 93 ⟨42, [], [(1, 37)]⟩ ⟨43, [], [(1, 37)]⟩
        (by decide) (by rfl)]
    rw [show (93 : Nat) = 92 + 1 from rfl,
      Cfile.parse_metadata_step scenarioText 92 ⟨43, [], [(1, 37)]⟩ ⟨44, [], [(1, 37)]⟩
        (by decide) (by rfl)]
    rw [show (92 : Nat) = 91 + 1 from rfl,
      Cfile.parse_metadata_step scenarioText 91 ⟨44, [], [(1, 37)]⟩ ⟨45, [], [(1, 37)]⟩
        (by decide) (by rfl)]
    rw [show (91 : Nat) = 90 + 1 from rfl,
      Cfile.parse_metadata_step scenarioText 90 ⟨45, [], [(1, 37)]⟩ ⟨46, [], [(1, 37)]⟩
        (by decide) (by rfl)]
    rw [show (90 : Nat) = 89 + 1 from rfl,
      Cfile.parse_metadata_step scenarioText 89 ⟨46, [], [(1, 37)]⟩ ⟨47, [], [(1, 37)]⟩
        (by decide) (by rfl)]
    rw [show (89 : Nat) = 88 + 1 from rfl,
      Cfile.parse_metadata_step scenarioText 88 ⟨47, [], [(1, 37)]⟩ ⟨48, [], [(1, 37)]⟩
        (by decide) (by rfl)]
    rw [show (88 : Nat) = 87 + 1 from rfl,
      Cfile.parse_metadata_step scenarioText 87 ⟨48, [], [(1, 37)]⟩ ⟨49, [], [(1, 37)]⟩
        (by decide) (by rfl)]
    rw [show (87 : Nat) = 86 + 1 from rfl,
      Cfile.parse_metadata_step scenarioText 86 ⟨49, [], [(1, 37)]⟩ ⟨50, [], [(1, 37)]⟩
        (by decide) (by rfl)]
    rw [show (86 : Nat) = 85 + 1 from rfl,
      Cfile.parse_metadata_step scenarioText 85 ⟨50, [], [(1, 37)]⟩ ⟨51, [], [(1, 37)]⟩
        (by decide) (by rfl)]
    rw [show (85 : Nat) = 84 + 1 from rfl,
      Cfile.parse_metadata_step scenarioText 84 ⟨51, [], [(1, 37)]⟩ ⟨52, [], [(1, 37)]⟩
        (by decide) (by rfl)]
    rw [show (84 : Nat) = 83 + 1 from rfl,
      Cfile.parse_metadata_step scenarioText 83 ⟨52, [], [(1, 37)]⟩ ⟨53, [], [(1, 37)]⟩
        (by decide) (by rfl)]
    rw [show (83 : Nat) = 82 + 1 from rfl,
      Cfile.parse_metadata_step scenarioText 82 ⟨53, [], [(1, 37)]⟩ ⟨54, [], [(1, 37)]⟩
        (by decide) (by rfl)]
    rw [show (82 : Nat) = 81 + 1 from rfl,
      Cfile.parse_metadata_step scenarioText 81 ⟨54, [], [(1, 37)]⟩ ⟨55, [], [(1, 37)]⟩
        (by decide) (by rfl)]
    rw [show (81 : Nat) = 80 + 1 from rfl,
      Cfile.parse_metadata_step scenarioText 80 ⟨55, [], [(1, 37)]⟩ ⟨56, [], [(1, 37)]⟩
        (by decide) (by rfl)]
    rw [show (80 : Nat) = 79 + 1 from rfl,
      Cfile.parse_metadata_step scenarioText 79 ⟨56, [], [(1, 37)]⟩ ⟨57, [], [(1, 37)]⟩
        (by decide) (by rfl)]
    rw [show (79 : Nat) = 78 + 1 from rfl,
      Cfile.parse_metadata_step scenarioText 78 ⟨57, [], [(1, 37)]⟩ ⟨58, [], [(1, 37)]⟩
        (by decide) (by rfl)]
    rw [show (78 : Nat) = 77 + 1 from rfl,
      Cfile.parse_metadata_step scenarioText 77 ⟨58, [], [(1, 37)]⟩ ⟨59, [], [(1, 37)]⟩
        (by decide) (by rfl)]
    rw [show (77 : Nat) = 76 + 1 from rfl,
      Cfile.parse_metadata_step scenarioText 76 ⟨59, [], [(1, 37)]⟩ ⟨60, [], [(1, 37)]⟩
        (by decide) (by rfl)]
    rw [show (76 : Nat) = 75 + 1 from rfl,
      Cfile.parse_metadata_step scenarioText 75 ⟨60, [], [(1, 37)]⟩ ⟨61, [], [(1, 37)]⟩
        (by decide) (by rfl)]
    rw [show (75 : Nat) = 74 + 1 from rfl,
      Cfile.parse_metadata_step scenarioText 74 ⟨61, [], [(1, 37)]⟩ ⟨62, [], [(1, 37)]⟩
        (by decide) (by rfl)]
    rw [show (74 : Nat) = 73 + 1 from rfl,
      Cfile.parse_metadata_step scenarioText 73 ⟨62, [], [(1, 37)]⟩ ⟨63, [], [(1, 37)]⟩
        (by decide) (by rfl)]
    rw [show (73 : Nat) = 72 + 1 from rfl,
      Cfile.parse_metadata_step scenarioText 72 ⟨63, [], [(1, 37)]⟩ ⟨64, [], [(1, 37)]⟩
        (by decide) (by rfl)]
    rw [show (72 : Nat) = 71 + 1 from rfl,
      Cfile.parse_metadata_step scenarioText 71 ⟨64, [], [(1, 37)]⟩ ⟨65, [], [(1, 37)]⟩
        (by decide) (by rfl)]
    rw [show (71 : Nat) = 70 + 1 from rfl,
      Cfile.parse_metadata_step scenarioText 70 ⟨65, [], [(1, 37)]⟩ ⟨66, [], [(1, 37)]⟩
        (by decide) (by rfl)]
    rw [show (70 : Nat) = 69 + 1 from rfl,
      Cfile.parse_metadata_step scenarioText 69 ⟨66, [], [(1, 37)]⟩ ⟨67, [], [(1, 37)]⟩
        (by decide) (by rfl)]
    rw [show (69 : Nat) = 68 + 1 from rfl,
      Cfile.parse_metadata_step scenarioText 68 ⟨67, [], [(1, 37)]⟩ ⟨68, [], [(1, 37)]⟩
        (by decide) (by rfl)]
    rw [show (68 : Nat) = 67 + 1 from rfl,
      Cfile.parse_metadata_step scenarioText 67 ⟨68, [], [(1, 37)]⟩ ⟨69, [], [(1, 37)]⟩
        (by decide) (by rfl)]
    rw [show (67 : Nat) = 66 + 1 from rfl,
      Cfile.parse_metadata_step scenarioText 66 ⟨69, [], [(1, 37)]⟩ ⟨70, [], [(1, 37)]⟩
        (by decide) (by rfl)]
    rw [show (66 : Nat) = 65 + 1 from rfl,
      Cfile.parse_metadata_step scenarioText 65 ⟨70, [], [(1, 37)]⟩ ⟨71, [], [(1, 37)]⟩
        (by decide) (by rfl)]
    rw [show (65 : Nat) = 64 + 1 from rfl,
      Cfile.parse_metadata_step scenarioText 64 ⟨71, [], [(1, 37)]⟩ ⟨72, [], [(1, 37)]⟩
        (by decide) (by rfl)]
    rw [show (64 : Nat) = 63 + 1 from rfl,
      Cfile.parse_metadata_step scenarioText 63 ⟨72, [], [(1, 37)]⟩ ⟨73, [], [(1, 37)]⟩
        (by decide) (by rfl)]
    rw [show (63 : Nat) = 62 + 1 from rfl,
      Cfile.parse_metadata_step scenarioText 62 ⟨73, [], [(1, 37)]⟩ ⟨80, [], [(1, 37)]⟩
        (by decide) (by rfl)]
    rw [show (62 : Nat) = 61 + 1 from rfl,
      Cfile.parse_metadata_step scenarioText 61 ⟨80, [], [(1, 37)]⟩ ⟨81, [], [(1, 37)]⟩
        (by decide) (by rfl)]
    rw [show (61 : Nat) = 60 + 1 from rfl,
      Cfile.parse_metadata_step scenarioText 60 ⟨81, [], [(1, 37)]⟩ ⟨98, [], [(1, 37)]⟩
        (by decide) (by rfl)]
    rw [show (60 : Nat) = 59 + 1 from rfl,
      Cfile.parse_metadata_step scenarioText 59 ⟨98, [], [(1, 37)]⟩ ⟨99, [], [(1, 37)]⟩
        (by decide) (by rfl)]
    rw [show (59 : Nat) = 58 + 1 from rfl]
    exact Cfile.parse_metadata_done scenarioText 58 ⟨99, [], [(1, 37)]⟩ (by decide)
  exact Cfile.mkCSourceFile_eq_of scenarioText ⟨99, [], [(1, 37)]⟩ rfl
    (by rw [show scenarioText.length + 1 = 100 from rfl]; exact h100)

set_option maxHeartbeats 800000 in
/-- C1 (code bug): on the specification's scenario source, both generation
passes raise `TypeError` inside `write_decl_chunk` (the
`get_header_chunks` arity mismatch) before emitting any declaration: the
output is empty, not the bytes the claim specifies. -/
theorem c1_scenario_crashes :
    Cfile.mkCSourceFile scenarioText = .ok scenarioCf
      ∧ Generator.write_all scenarioCf scenarioDecls false
        = ([], .error Generator.GenErr.typeError)
      ∧ Generator.write_all scenarioCf scenarioDecls true
        = ([], .error Generator.GenErr.typeError)
      ∧ ([] : Buf) ≠ s2b "void foo(int x);\n\nextern int compute(int x);\n"
      ∧ ([] : Buf) ≠ s2b "void foo(int x);\n\nint g_count;\n" :=
  ⟨scenario_scan, rfl, rfl, by decide, by decide⟩

/-- A source whose only content is a guard comment, after `parse_metadata`. -/
def guardSrcCf : Cfile.CSourceFile := ⟨s2b "// @guard X\n", [(2, 11)], []⟩

/-- C7 (code bug): no generation pass ever completes — even with a resolved
guard name and no declarations at all, `write_all` raises `TypeError` in
`write_remaining_marked_chunks`; the output holds the opening
`#ifndef X\n#define X\n\n` already written but never gains the closing
`\n#endif\n`. -/
theorem c7_guard_pass_never_completes :
    Cfile.mkCSourceFile (s2b "// @guard X\n") = .ok guardSrcCf
      ∧ Generator.write_all guardSrcCf [] false
        = (s2b "#ifndef X\n#define X\n\n", .error Generator.GenErr.typeError)
      ∧ bytesEndsWith (s2b "#ifndef X\n#define X\n\n") (s2b "\n#endif\n") = false
      ∧ Generator.write_all guardSrcCf [] true
        = ([], .error Generator.GenErr.typeError) :=
  ⟨rfl, rfl, by decide, rfl⟩

theorem vds_ok_true_iff (cf : Cfile.CSourceFile) (storage : List String) (n : Nat)
    (priv : Bool) :
    Generator.var_decl_selected cf storage n priv = .ok true
      ↔ "extern" ∉ storage ∧ decide ("static" ∈ storage) = priv
          ∧ Cfile.is_in_preproc_cond cf n = .ok false := by
  unfold Generator.var_decl_selected
  by_cases he : "extern" ∈ storage
  · rw [if_pos he]
    constructor
    · intro h
      injection h with h
      cases h
    · rintro ⟨h1, -, -⟩
      exact absurd he h1
  · rw [if_neg he]
    by_cases hs : (decide ("static" ∈ storage) != priv) = true
    · rw [if_pos hs]
      simp only [bne_iff_ne, ne_eq] at hs
      constructor
      · intro h
        injection h with h
        cases h
      · rintro ⟨-, h2, -⟩
        exact absurd h2 hs
    · rw [if_neg hs]
      simp only [bne_iff_ne, ne_eq, not_not] at hs
      cases hc : Cfile.is_in_preproc_cond cf n with
      | error e =>
        constructor
        · intro h
          cases h
        · rintro ⟨-, -, h3⟩
          cases h3
      | ok b =>
        cases b with
        | true =>
          constructor
          · intro h
            injection h with h
            cases h
          · rintro ⟨-, -, h3⟩
            injection h3 with h3
            cases h3
        | false => exact ⟨fun _ => ⟨he, hs, rfl⟩, fun _ => rfl⟩

theorem fds_ok_true_iff (cf : Cfile.CSourceFile) (storage : List String) (n : Nat)
    (priv : Bool) :
    Generator.func_def_selected cf storage n priv = .ok true
      ↔ decide ("static" ∈ storage) = priv ∧ Cfile.is_in_preproc_cond cf n = .ok false := by
  unfold Generator.func_def_selected
  by_cases hs : (decide ("static" ∈ storage) != priv) = true
  · rw [if_pos hs]
    simp only [bne_iff_ne, ne_eq] at hs
    constructor
    · intro h
      injection h with h
      cases h
    · rintro ⟨h2, -⟩
      exact absurd h2 hs
  · rw [if_neg hs]
    simp only [bne_iff_ne, ne_eq, not_not] at hs
    cases hc : Cfile.is_in_preproc_cond cf n with
    | error e =>
      constructor
      · intro h
        cases h
      · rintro ⟨-, h3⟩
        cases h3
    | ok b =>
      cases b with
      | true =>
        constructor
        · intro h
          injection h with h
          cases h
        · rintro ⟨-, h3⟩
          injection h3 with h3
          cases h3
      | false => exact ⟨fun _ => ⟨hs, rfl⟩, fun _ => rfl⟩

/-- Scanner result for a plain one-declaration file (no comments, no
conditionals). -/
def cfPlain : Cfile.CSourceFile := ⟨s2b "int f;\n", [], []⟩

/-- C4 counterexample: a function definition whose storage includes `extern`
is selected for the public header (`visit_FuncDecl` never tests `extern`),
and its visit reaches `write_decl_chunk` — the claim's "synthesized into
neither header, for functions as well as variables" fails. -/
theorem c4_extern_function_not_skipped :
    Cfile.mkCSourceFile (s2b "int f;\n") = .ok cfPlain
      ∧ Generator.func_def_selected cfPlain ["extern"] 1 false = .ok true
      ∧ Generator.processNode cfPlain false ⟨[], true, 1⟩
          (Generator.CNode.funcDef ["extern"] 1) = .error Generator.GenErr.typeError :=
  ⟨rfl, rfl, rfl⟩

/-- C4 (amended): the `extern` skip applies only to variable declarations;
a function definition is partitioned solely by `static`.  Among
declarations whose line is outside every recorded conditional region, a
variable goes to the private pass exactly when it is `static` (and not
`extern`), to the public pass exactly when it is neither, and a function
definition goes to the private pass exactly when `static` and to the public
pass otherwise — so every declaration is selected by at most one of the two
passes. -/
theorem c4_visibility_partition (cf : Cfile.CSourceFile) (storage : List String)
    (n : Nat) (priv : Bool) (st : Generator.GState) :
    ("extern" ∈ storage →
      Generator.var_decl_selected cf storage n priv = .ok false
        ∧ Generator.processNode cf priv st (.varDecl storage n) = .ok st)
    ∧ (Generator.var_decl_selected cf storage n true = .ok true
        ↔ "extern" ∉ storage ∧ "static" ∈ storage
            ∧ Cfile.is_in_preproc_cond cf n = .ok false)
    ∧ (Generator.var_decl_selected cf storage n false = .ok true
        ↔ "extern" ∉ storage ∧ "static" ∉ storage
            ∧ Cfile.is_in_preproc_cond cf n = .ok false)
    ∧ (Generator.func_def_selected cf storage n true = .ok true
        ↔ "static" ∈ storage ∧ Cfile.is_in_preproc_cond cf n = .ok false)
    ∧ (Generator.func_def_selected cf storage n false = .ok true
        ↔ "static" ∉ storage ∧ Cfile.is_in_preproc_cond cf n = .ok false)
    ∧ ¬(Generator.var_decl_selected cf storage n true = .ok true
        ∧ Generator.var_decl_selected cf storage n false = .ok true)
    ∧ ¬(Generator.func_def_selected cf storage n true = .ok true
        ∧ Generator.func_def_selected cf storage n false = .ok true) := by
  have h2 := vds_ok_true_iff cf storage n true
  have h3 := vds_ok_true_iff cf storage n false
  have h4 := fds_ok_true_iff cf storage n true
  have h5 := fds_ok_true_iff cf storage n false
  simp only [decide_eq_true_eq] at h2 h4
  simp only [decide_eq_false_iff_not] at h3 h5
  refine ⟨?_, h2, h3, h4, h5, ?_, ?_⟩
  · intro he
    have hsel : Generator.var_decl_selected cf storage n priv = .ok false := by
      unfold Generator.var_decl_selected
      rw [if_pos he]
    refine ⟨hsel, ?_⟩
    simp only [Generator.processNode, hsel]
  · rintro ⟨ha, hb⟩
    obtain ⟨-, hs1, -⟩ := h2.mp ha
    obtain ⟨-, hs2, -⟩ := h3.mp hb
    exact hs2 hs1
  · rintro ⟨ha, hb⟩
    obtain ⟨hs1, -⟩ := h4.mp ha
    obtain ⟨hs2, -⟩ := h5.mp hb
    exact hs2 hs1

/-- Witness for the amended C4 at a concrete `extern` variable. -/
theorem c4_visibility_partition_witness :
    Generator.var_decl_selected cfPlain ["extern"] 1 false = .ok false
      ∧ Generator.processNode cfPlain false ⟨[], true, 1⟩
          (Generator.CNode.varDecl ["extern"] 1) = .ok ⟨[], true, 1⟩ :=
  (c4_visibility_partition cfPlain ["extern"] 1 false ⟨[], true, 1⟩).1 (by decide)

/-- Scanner result for a file whose declaration sits inside
`#ifdef HEADER ... #endif`. -/
def cfCond : Cfile.CSourceFile := ⟨s2b "#ifdef HEADER\nint x;\n#endif\n", [], [(1, 27)]⟩

/-- C5: `is_in_preproc_cond` holds exactly when the line's start offset
falls inside some recorded conditional region (start inclusive, end
exclusive), and any declaration on such a line is synthesized into neither
header — its visit leaves the pass state untouched. -/
theorem c5_conditional_exclusion (cf : Cfile.CSourceFile) (n : Nat) :
    (Cfile.is_in_preproc_cond cf n = .ok true
      ↔ ∃ p, Cfile.line_to_pos cf n = .ok p
          ∧ ∃ se ∈ cf.preproc_ifs, se.1 ≤ p ∧ p < se.2)
    ∧ (∀ (priv : Bool) (st : Generator.GState) (storage : List String),
        Cfile.is_in_preproc_cond cf n = .ok true →
          Generator.processNode cf priv st (.varDecl storage n) = .ok st
          ∧ Generator.processNode cf priv st (.funcDef storage n) = .ok st
          ∧ Generator.processNode cf priv st (.funcDeclOnly storage n) = .ok st) := by
  constructor
  · unfold Cfile.is_in_preproc_cond
    cases hl : Cfile.line_to_pos cf n with
    | error e =>
      constructor
      · intro h
        cases h
      · rintro ⟨p, hp, -⟩
        cases hp
    | ok pos =>
      constructor
      · intro h
        injection h with h
        rw [List.any_eq_true] at h
        obtain ⟨se, hmem, hse⟩ := h
        simp only [Bool.and_eq_true, decide_eq_true_eq] at hse
        exact ⟨pos, rfl, se, hmem, hse.1, hse.2⟩
      · rintro ⟨p, hp, se, hmem, hp1, hp2⟩
        injection hp with hp
        subst hp
        show Except.ok (cf.preproc_ifs.any
            fun se => decide (se.1 ≤ pos) && decide (pos < se.2)) = Except.ok true
        congr 1
        rw [List.any_eq_true]
        refine ⟨se, hmem, ?_⟩
        simp [hp1, hp2]
  · intro priv st storage hin
    have hsel1 : Generator.var_decl_selected cf storage n priv = .ok false := by
      unfold Generator.var_decl_selected
      by_cases he : "extern" ∈ storage
      · rw [if_pos he]
      · rw [if_neg he]
        by_cases hs : (decide ("static" ∈ storage) != priv) = true
        · rw [if_pos hs]
        · rw [if_neg hs, hin]
    have hsel2 : Generator.func_def_selected cf storage n priv = .ok false := by
      unfold Generator.func_def_selected
      by_cases hs : (decide ("static" ∈ storage) != priv) = true
      · rw [if_pos hs]
      · rw [if_neg hs, hin]
    refine ⟨?_, ?_, rfl⟩
    · simp only [Generator.processNode, hsel1]
    · simp only [Generator.processNode, hsel2]

/-- Witness for C5 at a concrete file and conditional region. -/
theorem c5_conditional_exclusion_witness :
    Cfile.mkCSourceFile (s2b "#ifdef HEADER\nint x;\n#endif\n") = .ok cfCond
      ∧ Cfile.is_in_preproc_cond cfCond 2 = .ok true
      ∧ Generator.processNode cfCond false ⟨[], true, 1⟩
          (Generator.CNode.varDecl [] 2) = .ok ⟨[], true, 1⟩ :=
  ⟨rfl, rfl, ((c5_conditional_exclusion cfCond 2).2 false ⟨[], true, 1⟩ [] (by rfl)).1⟩

/-- C2: whenever `replace_blocks` succeeds, its result has exactly as many
newline bytes as its input; moreover `replace_strings` and
`replace_non_preproc` preserve the newline count of every input
unconditionally (so the interiors of replaced string literals and the
deleted line contents keep their newlines). -/
theorem c2_newline_invariance :
    (∀ x r : Buf, Blockrepl.replace_blocks x = .ok r → countNL r = countNL x)
      ∧ (∀ x : Buf, countNL (Blockrepl.replace_strings x) = countNL x)
      ∧ (∀ x : Buf, countNL (Blockrepl.replace_non_preproc x) = countNL x) :=
  ⟨fun _ _ h => Blockrepl.replace_blocks_countNL h,
   Blockrepl.replace_strings_countNL,
   Blockrepl.replace_non_preproc_countNL⟩

/-- Witness for C2 at a concrete successful block-replacement run. -/
theorem c2_newline_invariance_witness :
    Blockrepl.replace_blocks (s2b "int f(void) \x7b\n    return \"a;b\";\n\x7d\nint g;\n")
        = .ok (s2b "int f(void) \x7b\n\n\x7d\nint g;\n")
      ∧ countNL (s2b "int f(void) \x7b\n\n\x7d\nint g;\n")
          = countNL (s2b "int f(void) \x7b\n    return \"a;b\";\n\x7d\nint g;\n") :=
  ⟨rfl, c2_newline_invariance.1
    (s2b "int f(void) \x7b\n    return \"a;b\";\n\x7d\nint g;\n")
    (s2b "int f(void) \x7b\n\n\x7d\nint g;\n") rfl⟩

/-- C3 counterexample: in the replaced block of `f() \x7b ... \x7d`, the
interior line ` #a` has leading whitespace before its `#`; the claim says
such a line is kept verbatim, but block replacement deletes its content —
the output no longer contains `#a`. -/
theorem c3_whitespace_hash_line_deleted :
    Blockrepl.replace_blocks (s2b "f() \x7b\n #a\nx\n\x7d\n")
        = .ok (s2b "f() \x7b\n\n\n\x7d\n")
      ∧ bytesContains (s2b "f() \x7b\n\n\n\x7d\n") (s2b "#a") = false :=
  ⟨rfl, rfl⟩

/-- C3 (amended): blanking a block interior works line by line and preserves
every newline, but only a line whose FIRST byte is `#` is kept verbatim; a
line whose first byte is neither `#` nor a newline loses all of its content
except its newline bytes, so leading whitespace before `#` does not protect
a preprocessor line. -/
theorem c3_blanking_linewise (x : Buf) :
    Blockrepl.replace_non_preproc x
        = bjoin ((splitKeepEnds x).map Blockrepl.blankLine)
      ∧ countNL (Blockrepl.replace_non_preproc x) = countNL x
      ∧ ∀ l ∈ splitKeepEnds x,
          (∀ r, l = 35 :: r → Blockrepl.blankLine l = l)
          ∧ ∀ c r, l = c :: r → c ≠ 35 → c ≠ 10 →
              Blockrepl.blankLine l = l.filter (fun b => b == 10) := by
  refine ⟨Blockrepl.replace_non_preproc_linewise x,
    Blockrepl.replace_non_preproc_countNL x, ?_⟩
  intro l _
  constructor
  · intro r hl
    subst hl
    simp [Blockrepl.blankLine]
  · intro c r hl hc h10
    subst hl
    have h1 : (c == 35) = false := by simpa using hc
    have h2 : (c == 10) = false := by simpa using h10
    simp [Blockrepl.blankLine, h1, h2]

/-- Witness for the amended C3 at the block interior ` #a\nx\n`. -/
theorem c3_blanking_linewise_witness :
    Blockrepl.replace_non_preproc (s2b " #a\nx\n")
        = bjoin ((splitKeepEnds (s2b " #a\nx\n")).map Blockrepl.blankLine)
      ∧ Blockrepl.blankLine (s2b " #a\n")
          = (s2b " #a\n").filter (fun b => b == 10) :=
  ⟨(c3_blanking_linewise (s2b " #a\nx\n")).1,
   ((c3_blanking_linewise (s2b " #a\nx\n")).2.2 (s2b " #a\n") (by decide)).2
     32 (s2b "#a\n") (by decide) (by decide) (by decide)⟩

/-- C6 counterexample: with the annotation on its own line above the
include, `should_keep_include` does not see it (it only looks for a trailing
annotation on the include's own line), so BOTH includes are blanked — the
`x.h` line does not survive. -/
theorem c6_annotation_on_own_line_fails :
    Precpp.replace_includes (s2b "// @include\n#include \"x.h\"\n#include \"y.h\"\n")
        = .ok (s2b "// @include\n\n\n")
      ∧ bytesContains (s2b "// @include\n\n\n") (s2b "#include \"x.h\"") = false :=
  ⟨rfl, rfl⟩

/-- C6 (amended): the `@include` annotation protects an include only when it
trails the directive on the same line.  For `#include "x.h" // @include`
followed by a bare `#include "y.h"`, the filter keeps the annotated `x.h`
line verbatim and blanks the unannotated `y.h` line. -/
theorem c6_trailing_annotation_kept :
    Precpp.replace_includes (s2b "#include \"x.h\" // @include\n#include \"y.h\"\n")
        = .ok (s2b "#include \"x.h\" // @include\n\n")
      ∧ bytesContains (s2b "#include \"x.h\" // @include\n\n")
          (s2b "#include \"x.h\"") = true
      ∧ bytesContains (s2b "#include \"x.h\" // @include\n\n")
          (s2b "#include \"y.h\"") = false :=
  ⟨rfl, rfl, rfl⟩

/-- C8 counterexample: scanning `/* never closes` fails with the
unexpected-end-of-file-while-searching scan error, but the reported
position is line 2, column 1 — the end of the newline-padded buffer — not
the comment's starting position, line 1, column 1. -/
theorem c8_error_not_at_comment_start :
    Cfile.mkCSourceFile (s2b "/* never closes")
        = .error ⟨Cfile.ErrKind.eofSearching (s2b "*/"), 2, 1⟩
      ∧ ((2, 1) : Nat × Nat) ≠ (1, 1) :=
  ⟨rfl, by decide⟩

/-- C8 (amended): an unterminated block comment makes metadata parsing fail
with the "unexpected end of file while searching for `*/`" scan error, and
the reported line and column are those of the end of the newline-padded
buffer (position 16, where the search ran out of input) as computed by
`location` — not those of the comment's start (position 0). -/
theorem c8_unterminated_comment_eof_position :
    Cfile.mkCSourceFile (s2b "/* never closes")
        = .error ⟨Cfile.ErrKind.eofSearching (s2b "*/"),
            (Cfile.location (s2b "/* never closes" ++ [10]) 16).1,
            (Cfile.location (s2b "/* never closes" ++ [10]) 16).2⟩
      ∧ Cfile.location (s2b "/* never closes" ++ [10]) 16 = (2, 1)
      ∧ Cfile.location (s2b "/* never closes" ++ [10]) 0 = (1, 1)
      ∧ ((2, 1) : Nat × Nat) ≠ (1, 1) :=
  ⟨rfl, rfl, rfl, by decide⟩

/-- Longest common prefix of two byte strings. -/
def commonPrefix2 : Buf → Buf → Buf
  | a :: as, b :: bs => if a == b then a :: commonPrefix2 as bs else []
  | _, _ => []

/-- The dedent step as the specification words it: remove from every line
the longest whitespace prefix that is common to all of the chunk's lines. -/
def spec_common_dedent (b : Buf) : Buf :=
  let ws := match (splitKeepEnds b).map
      (fun l => l.takeWhile (fun c => c == 32 || c == 9)) with
    | [] => []
    | w :: rest => rest.foldl commonPrefix2 w
  bjoin ((splitKeepEnds b).map (fun l => l.drop ws.length))

/-- Scanner result for a header block whose two lines are indented by two
spaces and by one space. -/
def cfIndent : Cfile.CSourceFile := ⟨s2b "#ifdef HEADER\n  a\n b\n#endif\n", [], [(1, 27)]⟩

/-- C9 (code bug): `remove_leading_indentation` removes the FIRST line's
whitespace prefix from the lines that begin with it — not the indentation
common to all lines, as both its own docstring and the specification state.
For the header block with lines `  a` and ` b` the rendered chunk is
`a\n b\n`, while removing the common one-space prefix would give ` a\nb\n`. -/
theorem c9_dedent_uses_first_line_indent :
    Cfile.mkCSourceFile (s2b "#ifdef HEADER\n  a\n b\n#endif\n") = .ok cfIndent
      ∧ Cfile.get_header_chunks cfIndent false = [s2b "a\n b\n"]
      ∧ Cfile.remove_leading_indentation (s2b "  a\n b\n") = s2b "a\n b\n"
      ∧ spec_common_dedent (s2b "  a\n b\n") = s2b " a\nb\n"
      ∧ Cfile.remove_leading_indentation (s2b "  a\n b\n")
          ≠ spec_common_dedent (s2b "  a\n b\n") :=
  ⟨rfl, rfl, rfl, rfl, by decide⟩
